import Mathlib

/-!
Verification of the validator composition engine of the simple-runtypes
library (src/src/index.ts, src/src/dictionary.ts, src/src/intersection.ts,
src/src/string module).

The embedding models JavaScript values as an inductive type `JsVal`
(numbers are safe integers or NaN, which is all the validators under
study distinguish; objects are ordered lists of own enumerable
string-keyed properties plus a list of symbol-keyed properties, since
symbol identity is what the failure marker relies on).  Runtypes are
embedded as an AST `Rt` covering the combinators under study, and the
internal calling convention `(v, failOrThrow)` is modelled by the
interpreter `run : Rt → JsVal → Mode → Except RuntypeErr JsVal`:

* a JavaScript `throw new RuntypeError(...)` is an `Except.error`;
* a returned `Fail` marker is an ordinary `JsVal` object tagged with the
  private symbol `failSymbol`, exactly as in the source, so that the
  marker travels through the same untyped channel as ordinary values and
  `isFail` is a genuine runtime test.
-/

namespace SimpleRuntypes

/-- A JavaScript symbol: unique identity (`id`) plus a description.
`Symbol('x')` always creates a fresh identity, so two symbols with the
same description are distinct. -/
structure Sym where
  id : Nat
  descr : String
deriving DecidableEq, Repr

/-- The private tag symbol: `Symbol('SimpleRuntypesFail')` from
src/src/index.ts line 88.  Application code cannot forge its identity;
a look-alike `Symbol('SimpleRuntypesFail')` has a different `id`. -/
def failSymbol : Sym := ⟨0, "SimpleRuntypesFail"⟩

/-- JavaScript numbers, restricted to what the studied validators
distinguish: exact integers and NaN.  (`parseInt` can produce NaN;
non-integer floats and infinities play no role in the claims.) -/
inductive JsNum where
  | int (i : Int)
  | nan
deriving DecidableEq, Repr

/-- JavaScript values: `undefined`, `null`, booleans, numbers, strings,
arrays, and plain objects.  An object carries its own enumerable
string-keyed properties in insertion order and its symbol-keyed
properties.  Prototype-chain lookups are not modelled (reads of absent
keys yield `undefined`), except for the `__proto__` setter behaviour of
property assignment, which the record combinator's behaviour depends on. -/
inductive JsVal where
  | undef
  | null
  | bool (b : Bool)
  | num (n : JsNum)
  | str (s : String)
  | arr (elems : List JsVal)
  | obj (fields : List (String × JsVal)) (syms : List (Sym × JsVal))

/-- `Number.isSafeInteger`. -/
def isSafeInteger : JsNum → Bool
  | .int i => i.natAbs ≤ 9007199254740991
  | .nan => false

/-- JavaScript strict equality `===` restricted to the values of the
model.  `NaN === NaN` is false.  Two objects or arrays are equal only
when they are the same reference; the model has no reference identity,
so object comparisons are conservatively false (literal runtypes only
ever carry primitives, where `===` is exactly structural equality). -/
def jsStrictEq : JsVal → JsVal → Bool
  | .undef, .undef => true
  | .null, .null => true
  | .bool a, .bool b => a == b
  | .num (.int a), .num (.int b) => a == b
  | .str a, .str b => a == b
  | _, _ => false

/-- SameValueZero, the key equality used by JavaScript `Map`:
like `===` but `NaN` equals `NaN`. -/
def sameValueZero : JsVal → JsVal → Bool
  | .num .nan, .num .nan => true
  | a, b => jsStrictEq a b

/-- Whitespace for `String.prototype.trim` and `parseInt` (the common
ASCII whitespace characters; exotic Unicode spaces are not modelled). -/
def isJsSpace (c : Char) : Bool :=
  c == ' ' || c == '\t' || c == '\n' || c == '\r' || c.toNat == 11 || c.toNat == 12

/-- `String.prototype.trim` on the character list. -/
def jsTrimChars (l : List Char) : List Char :=
  ((l.dropWhile isJsSpace).reverse.dropWhile isJsSpace).reverse

/-- `String.prototype.trim`. -/
def jsTrim (s : String) : String :=
  ⟨jsTrimChars s.data⟩

/-- Numeric value of a decimal digit list. -/
def digitsVal (l : List Char) : Nat :=
  l.foldl (fun acc c => acc * 10 + (c.toNat - 48)) 0

/-- `parseInt(s, 10)`: skip leading whitespace, accept an optional sign,
read the maximal decimal-digit prefix (ignoring any trailing junk), and
return NaN when there are no digits.  The model keeps the exact integer
value; the follow-up `isSafeInteger` check rejects every value on which
the float rounding of the real `parseInt` could differ. -/
def jsParseInt10 (s : String) : JsNum :=
  let l := s.data.dropWhile isJsSpace
  let signAndRest : Bool × List Char :=
    match l with
    | '-' :: r => (true, r)
    | '+' :: r => (false, r)
    | r => (false, r)
  let digits := signAndRest.2.takeWhile (fun c => c.isDigit)
  if digits.isEmpty then .nan
  else .int (if signAndRest.1 then -(digitsVal digits : Int) else (digitsVal digits : Int))

/-- `n.toString()` for the numbers of the model. -/
def jsNumToString : JsNum → String
  | .int i => toString i
  | .nan => "NaN"

/-- JavaScript `ToString` on a property key produced by a key runtype
(used by `res[keyOrFail] = ...` in the dictionary combinator).  Key
runtypes return strings in practice; the other cases follow the
JavaScript coercion for completeness (objects and arrays simplified). -/
def jsToPropKey : JsVal → String
  | .str s => s
  | .num n => jsNumToString n
  | .bool b => if b then "true" else "false"
  | .null => "null"
  | .undef => "undefined"
  | .arr _ => ""
  | .obj _ _ => "[object Object]"

/-! ### Object primitives -/

/-- The empty plain object `{}`. -/
def emptyObj : JsVal := .obj [] []

/-- Read an own enumerable string-keyed property. -/
def getField : JsVal → String → Option JsVal
  | .obj fs _, k => (fs.find? (fun p => p.1 == k)).map Prod.snd
  | _, _ => none

/-- `o[k]` with the absent-key result `undefined`. -/
def getFieldD (o : JsVal) (k : String) : JsVal :=
  (getField o k).getD (.undef)

/-- `Object.keys(o)`: own enumerable string keys in order. -/
def objKeys : JsVal → List String
  | .obj fs _ => fs.map Prod.fst
  | _ => []

/-- `o.hasOwnProperty(k)` for string keys. -/
def objHasOwn (o : JsVal) (k : String) : Bool :=
  (getField o k).isSome

/-- Replace the value of the first binding of `k`, keeping its position,
or append a new binding. -/
def setAssoc : List (String × JsVal) → String → JsVal → List (String × JsVal)
  | [], k, x => [(k, x)]
  | (k', y) :: rest, k, x =>
    if k' == k then (k, x) :: rest else (k', y) :: setAssoc rest k x

/-- Property assignment `o[k] = x` on a plain object.  Assigning to the
key `__proto__` triggers the inherited prototype setter and creates no
own property (the prototype mutation itself is not tracked; no studied
code path reads it back). -/
def objSet (o : JsVal) (k : String) (x : JsVal) : JsVal :=
  match o with
  | .obj fs ss => if k == "__proto__" then .obj fs ss else .obj (setAssoc fs k x) ss
  | v => v

/-! ### JSON.stringify and debugValue -/

/-- Escape one character for a JSON string literal (the common escapes;
other control characters are left as-is, which suffices for the
reason strings under study). -/
def escapeJsonChar (c : Char) : String :=
  if c == '"' then "\\\""
  else if c == '\\' then "\\\\"
  else if c == '\n' then "\\n"
  else if c == '\t' then "\\t"
  else if c == '\r' then "\\r"
  else String.singleton c

/-- A JSON string literal. -/
def escapeJson (s : String) : String :=
  "\"" ++ String.join (s.data.map escapeJsonChar) ++ "\""

theorem listPair_sizeOf_pos {α β : Type} [SizeOf α] [SizeOf β] (l : List (α × β)) :
    1 ≤ sizeOf l := by
  cases l <;> simp_arith

theorem list_sizeOf_pos {α : Type} [SizeOf α] (l : List α) : 1 ≤ sizeOf l := by
  cases l <;> simp_arith

mutual

/-- `JSON.stringify`.  A top-level `undefined` is handled by
`debugValue` before this function is reached; inside an array an
`undefined` element serializes as `null`, and inside an object an
`undefined`-valued property is skipped, as in JavaScript.  Symbol-keyed
properties are ignored. -/
def jsonStringify : JsVal → String
  | .undef => "null"
  | .null => "null"
  | .bool b => if b then "true" else "false"
  | .num (.int i) => toString i
  | .num .nan => "null"
  | .str s => escapeJson s
  | .arr xs => "[" ++ String.intercalate "," (jsonStringifyElems xs) ++ "]"
  | .obj fs _ => "\x7b" ++ String.intercalate "," (jsonStringifyFields fs) ++ "\x7d"
termination_by v => (sizeOf v, 1)
decreasing_by
  all_goals simp_wf
  all_goals
    first
      | exact Prod.Lex.right _ (by omega)
      | exact Prod.Lex.left _ _ (by omega)

def jsonStringifyElems : List JsVal → List String
  | [] => []
  | x :: rest => jsonStringify x :: jsonStringifyElems rest
termination_by xs => (sizeOf xs, 0)
decreasing_by
  all_goals simp_wf
  all_goals
    first
      | exact Prod.Lex.right _ (by omega)
      | exact Prod.Lex.left _ _ (by omega)

def jsonStringifyFields : List (String × JsVal) → List String
  | [] => []
  | (k, x) :: rest =>
    match x with
    | .undef => jsonStringifyFields rest
    | x' => (escapeJson k ++ ":" ++ jsonStringify x') :: jsonStringifyFields rest
termination_by fs => (sizeOf fs, 0)
decreasing_by
  all_goals simp_wf
  all_goals
    first
      | exact Prod.Lex.right _ (by omega)
      | exact Prod.Lex.left _ _ (by omega)

end

/-- `debugValue` from src/src/index.ts lines 1-19 (default maxLength
512).  The truncation keeps the tail `s.slice(maxLength - 1)` exactly as
the source does. -/
def debugValue (v : JsVal) : String :=
  match v with
  | .undef => "undefined"
  | v' =>
    let s := jsonStringify v'
    if s.length > 512 then (s.drop 511).push '…' else s

/-! ### The failure protocol (src/src/index.ts lines 85-171) -/

/-- The calling mode: `failOrThrow === undefined` (external, top-level
call) or `failOrThrow === failSymbol` (internal call from a combinator). -/
inductive Mode where
  | external
  | internal
deriving DecidableEq, Repr

/-- The payload of a thrown `RuntypeError`: message, offending value and
optional path, as constructed by `createFail` / `propagateFail`. -/
structure RuntypeErr where
  reason : String
  value : JsVal
  path : Option (List JsVal)

/-- The `Fail` marker object `{ [failSymbol]: true, reason, path }`. -/
def mkFail (reason : String) (path : List JsVal) : JsVal :=
  .obj [("reason", .str reason), ("path", .arr path)] [(failSymbol, .bool true)]

/-- `isFail` from src/src/index.ts lines 165-171: a non-null object
value carrying the private `failSymbol` property.  Arrays carry no
symbol properties in the model. -/
def isFail : JsVal → Bool
  | .obj _ ss => ss.any (fun p => p.1 == failSymbol)
  | _ => false

/-- `createFail` (src/src/index.ts lines 100-124): in external mode
throw a `RuntypeError` carrying the reason and the top-level value (no
path); in internal mode return a fresh marker with an empty path. -/
def createFail (m : Mode) (msg : String) (topLevelValue : JsVal) :
    Except RuntypeErr JsVal :=
  match m with
  | .external => .error ⟨msg, topLevelValue, none⟩
  | .internal => .ok (mkFail msg [])

/-- `fail(msg)` (src/src/index.ts lines 158-160), the public marker
constructor for custom runtypes: `createFail(failSymbol, msg)`. -/
def failFn (msg : String) : JsVal := mkFail msg []

/-- The accumulated path of a marker (`fail.path`). -/
def failPath (f : JsVal) : List JsVal :=
  match getField f "path" with
  | some (.arr p) => p
  | _ => []

/-- The reason of a marker (`fail.reason`). -/
def failReason (f : JsVal) : String :=
  match getField f "reason" with
  | some (.str s) => s
  | _ => ""

/-- `propagateFail` (src/src/index.ts lines 127-153): push the key (if
given) onto the marker's path; in external mode throw a `RuntypeError`
with the top-level value and the path reversed into root-to-leaf order
(`undefined` when the path is empty); in internal mode return the
marker with its updated path. -/
def propagateFail (m : Mode) (f : JsVal) (topLevelValue : JsVal)
    (key? : Option JsVal) : Except RuntypeErr JsVal :=
  let path := failPath f ++ key?.toList
  match m with
  | .external =>
    .error ⟨failReason f, topLevelValue, if path.isEmpty then none else some path.reverse⟩
  | .internal => .ok (objSet f "path" (.arr path))

end SimpleRuntypes

namespace SimpleRuntypes

/-! ### The runtype AST

Each constructor embeds one validator of the library, carrying exactly
the construction-time data its source closure captures.  `unionRt`
keeps its first alternative separate because `union()` with no
arguments throws a `RuntypeUsageError` at construction time, so an
empty union never exists as a runtype. -/

inductive Rt where
  /-- `boolean()` (src/src/index.ts lines 384-397). -/
  | booleanRt
  /-- `integer(options?)` (src/src/index.ts lines 263-303). -/
  | integerRt (minI maxI : Option Int)
  /-- `string(options?)` with minLength / maxLength / trim / match
  (the string module; the `match` regex is modelled as a predicate). -/
  | stringRt (minLen maxLen : Option Nat) (trim : Bool) (matchP : Option (String → Bool))
  /-- `stringAsInteger(options?)` (src/src/index.ts lines 305-382). -/
  | stringAsIntegerRt (minI maxI : Option Int)
  /-- `literal(lit)` (src/src/index.ts lines 444-465); carries the
  literal as metadata for discriminated unions. -/
  | literalRt (lit : JsVal)
  /-- `unknown()` (src/src/index.ts lines 470-474). -/
  | unknownRt
  /-- `ignore()` (src/src/index.ts lines 488-492). -/
  | ignoreRt
  /-- `optional(t)` (src/src/index.ts lines 847-855). -/
  | optionalRt (t : Rt)
  /-- `nullable(t)` (src/src/index.ts lines 860-868). -/
  | nullableRt (t : Rt)
  /-- `array(a, options?)` (src/src/index.ts lines 594-637). -/
  | arrayRt (item : Rt) (minLen maxLen : Option Nat)
  /-- `record(typemap)` (src/src/index.ts lines 775-823); the field
  list is the `fields` metadata in declaration order. -/
  | recordRt (fields : List (String × Rt))
  /-- `dictionary(keyRt, valueRt)` (src/src/dictionary.ts lines 12-92). -/
  | dictionaryRt (key value : Rt)
  /-- `union(...)` (src/src/index.ts lines 1033-1053), nonempty. -/
  | unionRt (first : Rt) (rest : List Rt)
  /-- A constructed `discriminatedUnion` (src/src/index.ts lines
  958-1009) carrying its construction-time tag lookup table. -/
  | discriminatedUnionRt (key : String) (table : List (JsVal × Rt))
  /-- The non-record branch of `intersection2` (src/src/index.ts lines
  1083-1102 / src/src/intersection.ts lines 108-125). -/
  | intersectBaseRt (a b : Rt)

mutual

/-- The `isPure` flag of a runtype (`isPureRuntype` in the runtype
module): whether the validator is marked as returning every accepted
input unchanged.  Primitive flags follow the sources that set them
(string: `!trim`; literal, boolean, integer, unknown, ignore: true;
stringAsInteger converts strings to numbers, hence impure; dictionary
and the base intersection: conjunction of the children, from
src/src/dictionary.ts line 16 and src/src/intersection.ts line 109).
For array, record, union, discriminated union, optional and nullable
the flag-computing module is not part of the sources; their conjunction
rule is modelled from the spec: composite combinators compute purity as
the conjunction of their children's purity. -/
def isPureRt : Rt → Bool
  | .booleanRt => true
  | .integerRt _ _ => true
  | .stringRt _ _ trim _ => !trim
  | .stringAsIntegerRt _ _ => false
  | .literalRt _ => true
  | .unknownRt => true
  | .ignoreRt => true
  | .optionalRt t => isPureRt t
  | .nullableRt t => isPureRt t
  | .arrayRt item _ _ => isPureRt item
  | .recordRt fields => isPureFields fields
  | .dictionaryRt k v => isPureRt k && isPureRt v
  | .unionRt a rest => isPureRt a && isPureList rest
  | .discriminatedUnionRt _ table => isPureTable table
  | .intersectBaseRt a b => isPureRt a && isPureRt b
termination_by rt => (sizeOf rt, 1)
decreasing_by
  all_goals simp_wf
  all_goals
    first
      | exact Prod.Lex.right _ (by omega)
      | exact Prod.Lex.left _ _ (by omega)

def isPureFields : List (String × Rt) → Bool
  | [] => true
  | (_, frt) :: rest => isPureRt frt && isPureFields rest
termination_by fields => (sizeOf fields, 0)
decreasing_by
  all_goals simp_wf
  all_goals
    first
      | exact Prod.Lex.right _ (by omega)
      | exact Prod.Lex.left _ _ (by omega)

def isPureList : List Rt → Bool
  | [] => true
  | r :: rest => isPureRt r && isPureList rest
termination_by l => (sizeOf l, 0)
decreasing_by
  all_goals simp_wf
  all_goals
    first
      | exact Prod.Lex.right _ (by omega)
      | exact Prod.Lex.left _ _ (by omega)

def isPureTable : List (JsVal × Rt) → Bool
  | [] => true
  | (_, rt) :: rest => isPureRt rt && isPureTable rest
termination_by t => (sizeOf t, 0)
decreasing_by
  all_goals simp_wf
  all_goals
    first
      | exact Prod.Lex.right _ (by omega)
      | exact Prod.Lex.left _ _ (by omega)

end

/-- Lookup in a discriminated-union tag table (`Map.get`, which uses
SameValueZero key equality). -/
def lookupTable (table : List (JsVal × Rt)) (tag : JsVal) : Option Rt :=
  (table.find? (fun p => sameValueZero p.1 tag)).map Prod.snd

theorem lookupTable_sizeOf {table : List (JsVal × Rt)} {tag : JsVal} {rt : Rt}
    (h : lookupTable table tag = some rt) : sizeOf rt < sizeOf table := by
  induction table with
  | nil => simp [lookupTable] at h
  | cons p rest ih =>
    unfold lookupTable at h
    rw [List.find?_cons] at h
    by_cases hc : sameValueZero p.1 tag = true
    · simp [hc] at h
      subst h
      cases p
      simp_arith
    · simp [hc] at h
      have := ih (by simpa [lookupTable] using h)
      cases p
      simp_arith
      omega

end SimpleRuntypes

namespace SimpleRuntypes

theorem rt_sizeOf_pos (r : Rt) : 1 ≤ sizeOf r := by
  cases r <;> simp_arith

theorem lookupTable_sizeOf_opt (table : List (JsVal × Rt)) (tag : JsVal) :
    sizeOf (lookupTable table tag) < 1 + sizeOf table := by
  rcases h : lookupTable table tag with _ | rt2
  · have := listPair_sizeOf_pos table
    simp_arith
    omega
  · have := lookupTable_sizeOf h
    simp_arith
    omega

theorem jsVal_sizeOf_pos (v : JsVal) : 1 ≤ sizeOf v := by
  cases v <;> simp_arith

/-! ### The interpreter

`run rt v m` is the call `rt(v, failOrThrow)` with `m` the value of
`failOrThrow`.  Composite combinators invoke children through the same
function; children validating sub-values are called with
`Mode.internal` (`failSymbol`) exactly where the source passes
`failSymbol`, and with the caller's mode `m` exactly where the source
passes `failOrThrow` through (notably the dictionary combinator, which
passes `failOrThrow` to its key and value runtypes). -/

mutual

def run : Rt → JsVal → Mode → Except RuntypeErr JsVal
  -- booleanRuntype
  | .booleanRt, v, m =>
    match v with
    | .bool b => .ok (.bool b)
    | _ => createFail m "expected a boolean" v
  -- integerRuntype plus the min/max wrapper of integer(options)
  | .integerRt minI maxI, v, m =>
    match v with
    | .num j =>
      if isSafeInteger j then
        match j with
        | .int n =>
          match minI with
          | some mn =>
            if n < mn then createFail m ("expected the integer to be >= " ++ toString mn) v
            else
              match maxI with
              | some mx =>
                if n > mx then createFail m ("expected the integer to be <= " ++ toString mx) v
                else .ok (.num (.int n))
              | none => .ok (.num (.int n))
          | none =>
            match maxI with
            | some mx =>
              if n > mx then createFail m ("expected the integer to be <= " ++ toString mx) v
              else .ok (.num (.int n))
            | none => .ok (.num (.int n))
        | .nan => .ok (.num j)
      else
        match createFail m "expected a safe integer" v with
        | .error e => .error e
        | .ok f => if isFail f then propagateFail m f v none else .ok f
    | _ =>
      match createFail m "expected a safe integer" v with
      | .error e => .error e
      | .ok f => if isFail f then propagateFail m f v none else .ok f
  -- stringRuntype plus the options wrapper of string(options)
  | .stringRt minLen maxLen trim matchP, v, m =>
    match v with
    | .str s =>
      match minLen with
      | some mn =>
        if s.length < mn then
          createFail m ("expected the string length to be at least " ++ toString mn) v
        else runStringChecks s maxLen trim matchP v m
      | none => runStringChecks s maxLen trim matchP v m
    | _ =>
      match createFail m "expected a string" v with
      | .error e => .error e
      | .ok f => if isFail f then propagateFail m f v none else .ok f
  -- stringAsIntegerRuntype plus the min/max wrapper
  | .stringAsIntegerRt minI maxI, v, m =>
    match v with
    | .str s =>
      let parsed := jsParseInt10 s
      -- integerRuntype(parsedNumber, failSymbol)
      if isSafeInteger parsed then
        match parsed with
        | .int n =>
          -- ensure the string contained only that integer
          let vSans := if s == "-0" then "0" else if s.data.head? == some '+' then s.drop 1 else s
          if jsNumToString (.int n) ≠ vSans then
            createFail m "expected string to contain only the safe integer, not additional characters, whitespace or leading zeros" v
          else
            match minI with
            | some mn =>
              if n < mn then createFail m ("expected the integer to be >= " ++ toString mn) v
              else
                match maxI with
                | some mx =>
                  if n > mx then createFail m ("expected the integer to be <= " ++ toString mx) v
                  else .ok (.num (.int n))
                | none => .ok (.num (.int n))
            | none =>
              match maxI with
              | some mx =>
                if n > mx then createFail m ("expected the integer to be <= " ++ toString mx) v
                else .ok (.num (.int n))
              | none => .ok (.num (.int n))
        | .nan => .ok (.num parsed)
      else
        -- the inner fail is propagated with the string as value
        propagateFail m (mkFail "expected a safe integer" []) v none
    | _ => createFail m "expected a string that contains a safe integer" v
  -- literal(lit)
  | .literalRt lit, v, m =>
    if jsStrictEq v lit then .ok lit
    else createFail m ("expected a literal: " ++ debugValue lit) v
  -- unknown()
  | .unknownRt, v, _m => .ok v
  -- ignore()
  | .ignoreRt, _v, _m => .ok (.undef)
  -- optional(t)
  | .optionalRt t, v, m =>
    match v with
    | .undef => .ok .undef
    | _ => run t v m
  -- nullable(t)
  | .nullableRt t, v, m =>
    match v with
    | .null => .ok .null
    | _ => run t v m
  -- array(a, options?)
  | .arrayRt item minLen maxLen, v, m =>
    match v with
    | .arr xs =>
      match maxLen with
      | some mx =>
        if xs.length > mx then
          createFail m ("expected the array to contain at most " ++ toString mx ++ " elements") v
        else
          match minLen with
          | some mn =>
            if xs.length < mn then
              createFail m ("expected the array to contain at least " ++ toString mn ++ " elements") v
            else runArrayElems item xs 0 v [] m
          | none => runArrayElems item xs 0 v [] m
      | none =>
        match minLen with
        | some mn =>
          if xs.length < mn then
            createFail m ("expected the array to contain at least " ++ toString mn ++ " elements") v
          else runArrayElems item xs 0 v [] m
        | none => runArrayElems item xs 0 v [] m
    | _ =>
      match createFail m "expected an Array" v with
      | .error e => .error e
      | .ok f => if isFail f then propagateFail m f v none else .ok f
  -- record(typemap)
  | .recordRt fields, v, m =>
    match v with
    | .obj fs ss =>
      -- objectRuntype returns v itself; its result is then isFail-checked
      if isFail (.obj fs ss) then propagateFail m (.obj fs ss) v none
      else runRecordFields fields (.obj fs ss) v emptyObj m
    | _ =>
      match createFail m "expected an object" v with
      | .error e => .error e
      | .ok f => if isFail f then propagateFail m f v none else .ok f
  -- dictionary(keyRt, valueRt)
  | .dictionaryRt krt vrt, v, m =>
    match v with
    | .obj fs ss =>
      if isFail (.obj fs ss) then propagateFail m (.obj fs ss) v none
      else if !ss.isEmpty then
        createFail m ("invalid key in dictionary: " ++
          debugValue (.arr (ss.map (fun _ => JsVal.null)))) v
      else
        runDictEntries krt vrt fs v
          (if isPureRt krt && isPureRt vrt then .obj fs ss else emptyObj)
          (isPureRt krt && isPureRt vrt) m
    | _ =>
      match createFail m "expected an object" v with
      | .error e => .error e
      | .ok f => if isFail f then propagateFail m f v none else .ok f
  -- union(...)
  | .unionRt a rest, v, m => runUnionAlts (a :: rest) v m
  -- discriminatedUnion(key, ...) with its construction-time table
  | .discriminatedUnionRt key table, v, m =>
    match v with
    | .obj fs ss =>
      if isFail (.obj fs ss) then propagateFail m (.obj fs ss) v none
      else
        runDiscAlt (lookupTable table (getFieldD (.obj fs ss) key)) key
          (getFieldD (.obj fs ss) key) v m
    | _ =>
      match createFail m "expected an object" v with
      | .error e => .error e
      | .ok f => if isFail f then propagateFail m f v none else .ok f
  -- intersection2 on non-record runtypes
  | .intersectBaseRt a b, v, m =>
    match run a v m with
    | .error e => .error e
    | .ok valFromA =>
      match run b v m with
      | .error e => .error e
      | .ok valFromB =>
        if isFail valFromB then propagateFail m valFromB v none
        else if isFail valFromA then propagateFail m valFromA v none
        else .ok valFromB
termination_by rt _ _ => (sizeOf rt, 1)
decreasing_by
  all_goals simp_wf
  all_goals
    first
      | exact Prod.Lex.right _ (by omega)
      | exact Prod.Lex.left _ _ (by omega)
      | exact Prod.Lex.left _ _ (by
          have hsz := lookupTable_sizeOf_opt table (getFieldD (JsVal.obj fs ss) key)
          omega)

/-- The tag dispatch of `discriminatedUnion`: `typeMap.get(tagValue)`
followed by either the unknown-tag failure (naming the tag value) or
full delegation to the matching alternative with the caller's mode. -/
def runDiscAlt : Option Rt → String → JsVal → JsVal → Mode → Except RuntypeErr JsVal
  | none, key, tagValue, v, m =>
    createFail m ("no Runtype found for discriminated union tag " ++ key ++
      ": " ++ debugValue tagValue) v
  | some rt2, _, _, v, m => run rt2 v m
termination_by o _ _ _ _ => (sizeOf o, 0)
decreasing_by
  all_goals simp_wf
  all_goals
    first
      | exact Prod.Lex.right _ (by omega)
      | exact Prod.Lex.left _ _ (by omega)

/-- The maxLength / match / trim tail of the string validator (split
out of `run` for readability of the nested option matches; the check
order minLength, maxLength, match and the final `trim ? s.trim() : s`
follow the source). -/
def runStringChecks (s : String) (maxLen : Option Nat) (trim : Bool)
    (matchP : Option (String → Bool)) (v : JsVal) (m : Mode) :
    Except RuntypeErr JsVal :=
  match maxLen with
  | some mx =>
    if s.length > mx then
      createFail m ("expected the string length to not exceed " ++ toString mx) v
    else
      match matchP with
      | some p =>
        if !p s then createFail m "expected the string to match the given pattern" v
        else .ok (.str (if trim then jsTrim s else s))
      | none => .ok (.str (if trim then jsTrim s else s))
  | none =>
    match matchP with
    | some p =>
      if !p s then createFail m "expected the string to match the given pattern" v
      else .ok (.str (if trim then jsTrim s else s))
    | none => .ok (.str (if trim then jsTrim s else s))

/-- The element loop of `array`: validate each element in internal
mode, propagating the index as path key on the first failing element;
on success return the newly built array. -/
def runArrayElems (item : Rt) (elems : List JsVal) (i : Nat) (topV : JsVal)
    (acc : List JsVal) (m : Mode) : Except RuntypeErr JsVal :=
  match elems with
  | [] => .ok (.arr acc)
  | x :: rest =>
    match run item x .internal with
    | .error e => .error e
    | .ok itemV =>
      if isFail itemV then propagateFail m itemV topV (some (.num (.int i)))
      else runArrayElems item rest (i + 1) topV (acc ++ [itemV]) m
termination_by (sizeOf item, sizeOf elems)
decreasing_by
  all_goals simp_wf
  all_goals
    first
      | exact Prod.Lex.right _ (by
          have h1 := jsVal_sizeOf_pos x
          have h2 := list_sizeOf_pos rest
          omega)
      | exact Prod.Lex.left _ _ (by omega)

/-- The field loop of `record`: validate each declared field of `o` in
internal mode (reading absent fields as `undefined`), propagating the
field name as path key on failure; `res[k] = value` goes through the
`__proto__`-skipping property assignment.  After the loop, own keys of
`o` that did not become own keys of `res` are the unknown keys and
cause a failure. -/
def runRecordFields (fields : List (String × Rt)) (o topV res : JsVal)
    (m : Mode) : Except RuntypeErr JsVal :=
  match fields with
  | [] =>
    let unknownKeys := (objKeys o).filter (fun k => !objHasOwn res k)
    if unknownKeys.isEmpty then .ok res
    else
      createFail m ("invalid keys in record " ++
        debugValue (.arr (unknownKeys.map JsVal.str))) topV
  | (k, frt) :: rest =>
    match run frt (getFieldD o k) .internal with
    | .error e => .error e
    | .ok value =>
      if isFail value then propagateFail m value topV (some (.str k))
      else runRecordFields rest o topV (objSet res k value) m
termination_by (sizeOf fields, 0)
decreasing_by
  all_goals simp_wf
  all_goals
    first
      | exact Prod.Lex.right _ (by omega)
      | exact Prod.Lex.left _ _ (by omega)

/-- The key loop of `dictionary` (src/src/dictionary.ts lines 39-77):
for each own enumerable key, reject the literal key `__proto__`, then
validate the key and the value with the caller's mode (the source
passes `failOrThrow`, not `failSymbol`, to both); when impure,
accumulate `res[keyOrFail] = valueOrFail`, otherwise keep `res` (the
original object) untouched. -/
def runDictEntries (krt vrt : Rt) (entries : List (String × JsVal))
    (topV res : JsVal) (pure : Bool) (m : Mode) : Except RuntypeErr JsVal :=
  match entries with
  | [] => .ok res
  | (k, val) :: rest =>
    if k == "__proto__" then
      createFail m ("invalid key in dictionary: " ++ debugValue (.str k)) topV
    else
      match run krt (.str k) m with
      | .error e => .error e
      | .ok keyOrFail =>
        if isFail keyOrFail then propagateFail m keyOrFail topV none
        else
          match run vrt val m with
          | .error e => .error e
          | .ok valueOrFail =>
            if isFail valueOrFail then propagateFail m valueOrFail topV none
            else
              runDictEntries krt vrt rest topV
                (if pure then res else objSet res (jsToPropKey keyOrFail) valueOrFail)
                pure m
termination_by (sizeOf krt + sizeOf vrt, sizeOf entries)
decreasing_by
  all_goals simp_wf
  all_goals
    first
      | exact Prod.Lex.right _ (by omega)
      | exact Prod.Lex.right _ (by
          have h1 := listPair_sizeOf_pos rest
          have h2 := jsVal_sizeOf_pos val
          omega)
      | exact Prod.Lex.left _ _ (by omega)
      | exact Prod.Lex.left _ _ (by
          have h1 := rt_sizeOf_pos krt
          have h2 := rt_sizeOf_pos vrt
          omega)

/-- The alternative loop of `union`: try each alternative in internal
mode and in declaration order; return the first success; when all have
failed, propagate the last alternative's failure.  The empty case is
unreachable (`union()` with no runtypes is a construction-time usage
error, and `Rt.unionRt` always supplies a first alternative). -/
def runUnionAlts (alts : List Rt) (v : JsVal) (m : Mode) :
    Except RuntypeErr JsVal :=
  match alts with
  | [] => propagateFail m .undef v none
  | [a] =>
    match run a v .internal with
    | .error e => .error e
    | .ok val =>
      if isFail val then propagateFail m val v none
      else .ok val
  | a :: b :: rest2 =>
    match run a v .internal with
    | .error e => .error e
    | .ok val =>
      if isFail val then runUnionAlts (b :: rest2) v m
      else .ok val
termination_by (sizeOf alts, 0)
decreasing_by
  all_goals simp_wf
  all_goals
    first
      | exact Prod.Lex.right _ (by omega)
      | exact Prod.Lex.left _ _ (by omega)

end

end SimpleRuntypes

namespace SimpleRuntypes

/-! ### Construction-time functions -/

/-- Construction-time failures: `RuntypeUsageError` for API misuse, and
a JavaScript `TypeError` for the property accesses the source performs
on `undefined` (e.g. reading `.literal` of a missing field runtype). -/
inductive ConstructErr where
  | usage (msg : String)
  | typeErr (msg : String)

/-- The `literal` metadata stored on literal runtypes
(src/src/index.ts line 462): present only on literal runtypes. -/
def literalMetaOf : Rt → Option JsVal
  | .literalRt l => some l
  | _ => none

/-- The `fields` metadata stored on record runtypes
(src/src/index.ts lines 814-820): present only on record runtypes. -/
def fieldsMetaOf : Rt → Option (List (String × Rt))
  | .recordRt fields => some fields
  | _ => none

/-- The construction-time tag check of `discriminatedUnion`: the field
runtype must carry a `literal` and that literal must be a string or a
number (src/src/index.ts lines 968-980). -/
def tagLiteralOk (frt : Rt) : Bool :=
  match literalMetaOf frt with
  | some (.str _) => true
  | some (.num _) => true
  | _ => false

/-- `Map.set`: overwrite the binding of an existing key (SameValueZero),
keeping its position, or append a new binding. -/
def tableSet (table : List (JsVal × Rt)) (tag : JsVal) (rt : Rt) :
    List (JsVal × Rt) :=
  match table with
  | [] => [(tag, rt)]
  | (t, r) :: rest =>
    if sameValueZero t tag then (t, rt) :: rest else (t, r) :: tableSet rest tag rt

/-- The construction-time loop of `discriminatedUnion`
(src/src/index.ts lines 958-985): for each alternative, read
`t.fields[key].literal` and insert the tag into the accumulated table.
A non-record alternative or a missing field makes the property access
itself crash with a TypeError; a field whose runtype carries no literal
(`tagValue === undefined`) or a literal that is not a string or number
is a `RuntypeUsageError`. -/
def buildDiscriminatedUnion (key : String) (alts : List Rt)
    (acc : List (JsVal × Rt)) : Except ConstructErr (List (JsVal × Rt)) :=
  match alts with
  | [] => .ok acc
  | t :: rest =>
    match fieldsMetaOf t with
    | none => .error (.typeErr "cannot read fields of a non-record runtype")
    | some fields =>
      match (fields.find? (fun p => p.1 == key)).map Prod.snd with
      | none => .error (.typeErr "cannot read literal of undefined")
      | some frt =>
        match literalMetaOf frt with
        | none =>
          .error (.usage ("broken record type definition, the field " ++ key ++
            " is not a literal"))
        | some tagValue =>
          match tagValue with
          | .undef =>
            .error (.usage ("broken record type definition, the field " ++ key ++
              " is not a literal"))
          | .str s2 => buildDiscriminatedUnion key rest (tableSet acc (.str s2) t)
          | .num n => buildDiscriminatedUnion key rest (tableSet acc (.num n) t)
          | other =>
            .error (.usage ("broken record type definition, the field " ++ key ++
              " must be a string or number, not " ++ debugValue other))

/-- `discriminatedUnion(key, ...runtypes)`: build the lookup table at
construction time (inserting each alternative's tag literal in
declaration order, later alternatives overwriting earlier ones with the
same tag, as `Map.set` does), then close over the table. -/
def discriminatedUnionC (key : String) (alts : List Rt) : Except ConstructErr Rt :=
  (buildDiscriminatedUnion key alts []).map (fun tbl => .discriminatedUnionRt key tbl)

/-- `union(...runtypes)` (src/src/index.ts lines 1033-1036): no
runtypes is a construction-time `RuntypeUsageError`, so every union
runtype has at least one alternative. -/
def unionC (alts : List Rt) : Except ConstructErr Rt :=
  match alts with
  | [] => .error (.usage "no runtypes given to union")
  | a :: rest => .ok (.unionRt a rest)

/-- Field lookup in record `fields` metadata. -/
def lookupField (fields : List (String × Rt)) (k : String) : Option Rt :=
  (fields.find? (fun p => p.1 == k)).map Prod.snd

theorem lookupField_sizeOf {fields : List (String × Rt)} {k : String} {rt : Rt}
    (h : lookupField fields k = some rt) : sizeOf rt < sizeOf fields := by
  induction fields with
  | nil => simp [lookupField] at h
  | cons p rest ih =>
    unfold lookupField at h
    rw [List.find?_cons] at h
    by_cases hc : (p.1 == k) = true
    · simp [hc] at h
      subst h
      cases p
      simp_arith
    · simp [hc] at h
      have := ih (by simpa [lookupField] using h)
      cases p
      simp_arith
      omega

/-- The fields of `b` whose key is not declared in `a` (the tail of the
`{...a, ...b}` iteration order). -/
def fieldsOnlyB (fa fb : List (String × Rt)) : List (String × Rt) :=
  fb.filter (fun p => (lookupField fa p.1).isNone)

mutual

/-- `recordIntersection` merged field map (src/src/index.ts lines
1056-1077 / recordIntersection2 in src/src/intersection.ts lines
20-49), part one: walk the keys of `a` in declaration order; a key
also declared in `b` gets `intersection(a[k], b[k])`, a key only in
`a` keeps `a[k]`. -/
def mergeFieldsA : List (String × Rt) → List (String × Rt) → List (String × Rt)
  | [], _ => []
  | (k, ra) :: rest, fb =>
    match hb : lookupField fb k with
    | some rb => (k, intersection2 ra rb) :: mergeFieldsA rest fb
    | none => (k, ra) :: mergeFieldsA rest fb
termination_by l fb => (sizeOf l + sizeOf fb, 0)
decreasing_by
  all_goals simp_wf
  all_goals
    first
      | exact Prod.Lex.right _ (by omega)
      | exact Prod.Lex.left _ _ (by omega)
      | exact Prod.Lex.left _ _ (by
          have hsz := lookupField_sizeOf hb
          omega)

/-- `intersection2` (src/src/index.ts lines 1082-1102): two record
runtypes merge into a single new record runtype over the union of the
field sets (keys of `a` first, then the remaining keys of `b`,
overlapping fields recursively intersected); any other combination
becomes the run-both combinator that prefers the second result. -/
def intersection2 : Rt → Rt → Rt
  | .recordRt fa, .recordRt fb => .recordRt (mergeFieldsA fa fb ++ fieldsOnlyB fa fb)
  | a, b => .intersectBaseRt a b
termination_by a b => (sizeOf a + sizeOf b, 1)
decreasing_by
  all_goals simp_wf
  all_goals
    first
      | exact Prod.Lex.right _ (by omega)
      | exact Prod.Lex.left _ _ (by omega)

end

/-! ### Structural predicates used by the general theorems -/

mutual

/-- Whether a runtype contains no dictionary combinator.  The
dictionary combinator is the one combinator that validates sub-values
with the caller's mode instead of internal mode, so the general
top-level-value theorems hold exactly for dictionary-free runtypes. -/
def noDictionary : Rt → Bool
  | .dictionaryRt _ _ => false
  | .optionalRt t => noDictionary t
  | .nullableRt t => noDictionary t
  | .arrayRt item _ _ => noDictionary item
  | .recordRt fields => noDictFields fields
  | .unionRt a rest => noDictionary a && noDictList rest
  | .discriminatedUnionRt _ table => noDictTable table
  | .intersectBaseRt a b => noDictionary a && noDictionary b
  | _ => true
termination_by rt => (sizeOf rt, 1)
decreasing_by
  all_goals simp_wf
  all_goals
    first
      | exact Prod.Lex.right _ (by omega)
      | exact Prod.Lex.left _ _ (by omega)

def noDictFields : List (String × Rt) → Bool
  | [] => true
  | (_, frt) :: rest => noDictionary frt && noDictFields rest
termination_by fields => (sizeOf fields, 0)
decreasing_by
  all_goals simp_wf
  all_goals
    first
      | exact Prod.Lex.right _ (by omega)
      | exact Prod.Lex.left _ _ (by omega)

def noDictList : List Rt → Bool
  | [] => true
  | r :: rest => noDictionary r && noDictList rest
termination_by l => (sizeOf l, 0)
decreasing_by
  all_goals simp_wf
  all_goals
    first
      | exact Prod.Lex.right _ (by omega)
      | exact Prod.Lex.left _ _ (by omega)

def noDictTable : List (JsVal × Rt) → Bool
  | [] => true
  | (_, rt) :: rest => noDictionary rt && noDictTable rest
termination_by t => (sizeOf t, 0)
decreasing_by
  all_goals simp_wf
  all_goals
    first
      | exact Prod.Lex.right _ (by omega)
      | exact Prod.Lex.left _ _ (by omega)

end

mutual

/-- An application value: no object reachable through string-keyed
properties or array elements carries the private `failSymbol` tag.
Other symbol-keyed properties — including symbols with the same
description as `failSymbol` — are allowed. -/
def noFailSym : JsVal → Bool
  | .obj fs ss =>
    ss.all (fun p => !(p.1 == failSymbol)) && noFailSymFields fs
  | .arr xs => noFailSymElems xs
  | _ => true
termination_by v => (sizeOf v, 1)
decreasing_by
  all_goals simp_wf
  all_goals
    first
      | exact Prod.Lex.right _ (by omega)
      | exact Prod.Lex.left _ _ (by omega)

def noFailSymFields : List (String × JsVal) → Bool
  | [] => true
  | (_, x) :: rest => noFailSym x && noFailSymFields rest
termination_by fs => (sizeOf fs, 0)
decreasing_by
  all_goals simp_wf
  all_goals
    first
      | exact Prod.Lex.right _ (by omega)
      | exact Prod.Lex.left _ _ (by omega)

def noFailSymElems : List JsVal → Bool
  | [] => true
  | x :: rest => noFailSym x && noFailSymElems rest
termination_by xs => (sizeOf xs, 0)
decreasing_by
  all_goals simp_wf
  all_goals
    first
      | exact Prod.Lex.right _ (by omega)
      | exact Prod.Lex.left _ _ (by omega)

end

/-- A genuine failure marker: an object of exactly the shape
`createFail` / `fail` produce. -/
def FailShaped (f : JsVal) : Prop :=
  ∃ r p, f = mkFail r p

end SimpleRuntypes

namespace SimpleRuntypes

/-! ### Basic lemmas about markers and objects -/

@[simp] theorem isFail_mkFail (r : String) (p : List JsVal) :
    isFail (mkFail r p) = true := by
  simp [isFail, mkFail]

@[simp] theorem isFail_undef : isFail .undef = false := rfl

@[simp] theorem isFail_null : isFail .null = false := rfl

@[simp] theorem isFail_bool (b : Bool) : isFail (.bool b) = false := rfl

@[simp] theorem isFail_num (n : JsNum) : isFail (.num n) = false := rfl

@[simp] theorem isFail_str (s : String) : isFail (.str s) = false := rfl

@[simp] theorem isFail_arr (xs : List JsVal) : isFail (.arr xs) = false := rfl

theorem failReason_mkFail (r : String) (p : List JsVal) : failReason (mkFail r p) = r := by
  simp [failReason, mkFail, getField]

theorem failPath_mkFail (r : String) (p : List JsVal) : failPath (mkFail r p) = p := by
  simp [failPath, mkFail, getField]

theorem objSet_mkFail_path (r : String) (p q : List JsVal) :
    objSet (mkFail r p) "path" (.arr q) = mkFail r q := by
  simp [objSet, mkFail, setAssoc]

theorem propagateFail_mkFail_internal (r : String) (p : List JsVal) (tv : JsVal)
    (key? : Option JsVal) :
    propagateFail .internal (mkFail r p) tv key? = .ok (mkFail r (p ++ key?.toList)) := by
  simp [propagateFail, failPath_mkFail, objSet_mkFail_path]

theorem propagateFail_mkFail_external (r : String) (p : List JsVal) (tv : JsVal)
    (key? : Option JsVal) :
    propagateFail .external (mkFail r p) tv key? =
      .error ⟨r, tv,
        if (p ++ key?.toList).isEmpty then none else some (p ++ key?.toList).reverse⟩ := by
  unfold propagateFail
  rw [failPath_mkFail, failReason_mkFail]

theorem isFail_objSet (o : JsVal) (k : String) (x : JsVal) :
    isFail (objSet o k x) = isFail o := by
  cases o <;> try rfl
  rename_i fs ss
  by_cases hk : (k == "__proto__") = true
  · simp [objSet, hk]
  · simp [objSet, hk, isFail]

theorem propagateFail_internal_isFail (f tv : JsVal) (key? : Option JsVal) :
    ∃ g, propagateFail .internal f tv key? = .ok g ∧ isFail g = isFail f := by
  refine ⟨objSet f "path" (.arr (failPath f ++ key?.toList)), ?_, isFail_objSet ..⟩
  simp [propagateFail]

/-! ### SizeOf and membership lemmas -/

theorem sizeOf_mem_list {l : List Rt} {r : Rt} (h : r ∈ l) : sizeOf r < sizeOf l := by
  induction l with
  | nil => simp at h
  | cons a rest ih =>
    rcases List.mem_cons.mp h with h1 | h1
    · subst h1; simp_arith
    · have := ih h1; simp_arith; omega

theorem sizeOf_mem_fields {fields : List (String × Rt)} {k : String} {r : Rt}
    (h : (k, r) ∈ fields) : sizeOf r < sizeOf fields := by
  induction fields with
  | nil => simp at h
  | cons p rest ih =>
    rcases List.mem_cons.mp h with h1 | h1
    · rw [← h1]; simp_arith
    · have := ih h1; cases p; simp_arith; omega

theorem sizeOf_mem_table {table : List (JsVal × Rt)} {t : JsVal} {r : Rt}
    (h : (t, r) ∈ table) : sizeOf r < sizeOf table := by
  induction table with
  | nil => simp at h
  | cons p rest ih =>
    rcases List.mem_cons.mp h with h1 | h1
    · rw [← h1]; simp_arith
    · have := ih h1; cases p; simp_arith; omega

/-- Strong recursion over the runtype AST by size, used to walk through
the nested field and alternative lists of composite runtypes. -/
theorem Rt.strongRec {motive : Rt → Prop}
    (H : ∀ rt, (∀ rt', sizeOf rt' < sizeOf rt → motive rt') → motive rt) :
    ∀ rt, motive rt := by
  intro rt
  have general : ∀ n (rt' : Rt), sizeOf rt' ≤ n → motive rt' := by
    intro n
    induction n with
    | zero =>
      intro rt' h
      have := rt_sizeOf_pos rt'
      omega
    | succ n ih =>
      intro rt' h
      exact H rt' (fun rt'' h2 => ih rt'' (by omega))
  exact general (sizeOf rt) rt le_rfl

/-! ### A runtype invoked in internal mode never throws -/

set_option maxHeartbeats 2000000 in
/-- Joint statement over the interpreter and its loops: in internal
mode every validator returns a value (possibly a failure marker) and
never raises. -/
theorem internalNeverErrs :
    (∀ rt v m, m = Mode.internal → ∃ w, run rt v m = .ok w) ∧
    (∀ o key tagValue v m, m = Mode.internal →
      ∃ w, runDiscAlt o key tagValue v m = .ok w) ∧
    (∀ alts v m, m = Mode.internal → ∃ w, runUnionAlts alts v m = .ok w) ∧
    (∀ krt vrt entries topV res pure m, m = Mode.internal →
      ∃ w, runDictEntries krt vrt entries topV res pure m = .ok w) ∧
    (∀ fields o topV res m, m = Mode.internal →
      ∃ w, runRecordFields fields o topV res m = .ok w) ∧
    (∀ item elems i topV acc m, m = Mode.internal →
      ∃ w, runArrayElems item elems i topV acc m = .ok w) := by
  apply run.mutual_induct
  all_goals intros
  all_goals subst_vars
  all_goals try simp_all [run, runDiscAlt, runUnionAlts, runDictEntries, runRecordFields,
    runArrayElems, runStringChecks, createFail, propagateFail]
  all_goals
    try ((repeat' split) <;>
      try simp_all [run, runDiscAlt, runUnionAlts, runDictEntries, runRecordFields,
        runArrayElems, runStringChecks, createFail, propagateFail])
  all_goals
    try (cases ‹Option Int› <;>
      simp_all [run, runDiscAlt, runUnionAlts, runDictEntries, runRecordFields,
        runArrayElems, runStringChecks, createFail, propagateFail])
  all_goals
    try (cases ‹Option Nat› <;>
      simp_all [run, runDiscAlt, runUnionAlts, runDictEntries, runRecordFields,
        runArrayElems, runStringChecks, createFail, propagateFail])
  all_goals
    try (rw [run.eq_def] <;>
      simp_all [runDiscAlt, runUnionAlts, runDictEntries, runRecordFields, runArrayElems,
        runStringChecks, createFail, propagateFail])

/-- In internal mode, `run` always returns. -/
theorem run_internal_ok (rt : Rt) (v : JsVal) : ∃ w, run rt v .internal = .ok w :=
  internalNeverErrs.1 rt v _ rfl

theorem runUnionAlts_internal_ok (alts : List Rt) (v : JsVal) :
    ∃ w, runUnionAlts alts v .internal = .ok w :=
  internalNeverErrs.2.2.1 alts v _ rfl

theorem runDictEntries_internal_ok (krt vrt : Rt) (entries : List (String × JsVal))
    (topV res : JsVal) (pure : Bool) :
    ∃ w, runDictEntries krt vrt entries topV res pure .internal = .ok w :=
  internalNeverErrs.2.2.2.1 krt vrt entries topV res pure _ rfl

theorem runRecordFields_internal_ok (fields : List (String × Rt)) (o topV res : JsVal) :
    ∃ w, runRecordFields fields o topV res .internal = .ok w :=
  internalNeverErrs.2.2.2.2.1 fields o topV res _ rfl

theorem runArrayElems_internal_ok (item : Rt) (elems : List JsVal) (i : Nat)
    (topV : JsVal) (acc : List JsVal) :
    ∃ w, runArrayElems item elems i topV acc .internal = .ok w :=
  internalNeverErrs.2.2.2.2.2 item elems i topV acc _ rfl

end SimpleRuntypes

namespace SimpleRuntypes

/-! ### Application values -/

theorem noFailSymFields_mem {fs : List (String × JsVal)} {k : String} {x : JsVal}
    (hall : noFailSymFields fs = true) (hm : (k, x) ∈ fs) : noFailSym x = true := by
  induction fs with
  | nil => simp at hm
  | cons p rest ih =>
    obtain ⟨a, b⟩ := p
    rw [noFailSymFields] at hall
    simp at hall
    rcases List.mem_cons.mp hm with h1 | h1
    · injection h1 with e1 e2
      subst e2
      exact hall.1
    · exact ih hall.2 h1

theorem noFailSymElems_mem {xs : List JsVal} {x : JsVal}
    (hall : noFailSymElems xs = true) (hm : x ∈ xs) : noFailSym x = true := by
  induction xs with
  | nil => simp at hm
  | cons y rest ih =>
    rw [noFailSymElems] at hall
    simp at hall
    rcases List.mem_cons.mp hm with h1 | h1
    · rw [h1]; exact hall.1
    · exact ih hall.2 h1

theorem isFail_of_noFailSym {v : JsVal} (h : noFailSym v = true) : isFail v = false := by
  cases v with
  | obj fs ss =>
    rw [noFailSym] at h
    simp at h
    rw [isFail]
    simp
    intro p hm
    exact h.1 p hm
  | undef => rfl
  | null => rfl
  | bool b => rfl
  | num n => rfl
  | str s => rfl
  | arr xs => rfl

theorem noFailSym_getFieldD {o : JsVal} (k : String) (h : noFailSym o = true) :
    noFailSym (getFieldD o k) = true := by
  cases o with
  | obj fs ss =>
    rw [noFailSym] at h
    simp at h
    rcases hf : List.find? (fun p => p.1 == k) fs with _ | p
    · simp [getFieldD, getField, hf, noFailSym]
    · obtain ⟨a, b⟩ := p
      have hmem := List.mem_of_find?_eq_some hf
      simp [getFieldD, getField, hf]
      exact noFailSymFields_mem h.2 hmem
  | undef => simp [getFieldD, getField, noFailSym]
  | null => simp [getFieldD, getField, noFailSym]
  | bool b => simp [getFieldD, getField, noFailSym]
  | num n => simp [getFieldD, getField, noFailSym]
  | str s => simp [getFieldD, getField, noFailSym]
  | arr xs => simp [getFieldD, getField, noFailSym]

/-! ### External mode mirrors internal mode

In internal mode a validator returns either a proper value or a failure
marker; the corresponding external call returns the same proper value,
or throws, respectively.  The loops over children that are always
validated in internal mode (array elements, record fields, union
alternatives) satisfy this unconditionally; the dictionary loop, which
passes the caller's mode to its children, needs it of its key and value
runtypes. -/

theorem cohUnionAlts (a : Rt) (rest : List Rt) (v w : JsVal)
    (h : runUnionAlts (a :: rest) v .internal = .ok w) :
    (isFail w = false → runUnionAlts (a :: rest) v .external = .ok w) ∧
    (isFail w = true → ∃ e, runUnionAlts (a :: rest) v .external = .error e) := by
  induction rest generalizing a with
  | nil =>
    obtain ⟨val, hval⟩ := run_internal_ok a v
    by_cases hf : isFail val = true
    · obtain ⟨g, hg, hgf⟩ := propagateFail_internal_isFail val v none
      rw [runUnionAlts, hval] at h
      simp [hf, hg] at h
      subst h
      constructor
      · intro hwf; rw [hgf] at hwf; simp [hf] at hwf
      · intro _
        rw [runUnionAlts, hval]
        simp [hf, propagateFail]
    · rw [runUnionAlts, hval] at h
      simp [hf] at h
      subst h
      constructor
      · intro _; rw [runUnionAlts, hval]; simp [hf]
      · intro hwf; simp [hf] at hwf
  | cons b rest2 ih =>
    obtain ⟨val, hval⟩ := run_internal_ok a v
    by_cases hf : isFail val = true
    · rw [runUnionAlts, hval] at h
      simp [hf] at h
      have := ih b h
      constructor
      · intro hwf
        rw [runUnionAlts, hval]
        simp [hf]
        exact this.1 hwf
      · intro hwf
        obtain ⟨e, he⟩ := this.2 hwf
        refine ⟨e, ?_⟩
        rw [runUnionAlts, hval]
        simp [hf]
        exact he
    · rw [runUnionAlts, hval] at h
      simp [hf] at h
      subst h
      constructor
      · intro _; rw [runUnionAlts, hval]; simp [hf]
      · intro hwf; simp [hf] at hwf

end SimpleRuntypes

namespace SimpleRuntypes

theorem cohRecordFields (fields : List (String × Rt)) (o topV res w : JsVal)
    (hres : isFail res = false)
    (h : runRecordFields fields o topV res .internal = .ok w) :
    (isFail w = false → runRecordFields fields o topV res .external = .ok w) ∧
    (isFail w = true → ∃ e, runRecordFields fields o topV res .external = .error e) := by
  induction fields generalizing res with
  | nil =>
    rw [runRecordFields] at h
    by_cases hu : ((objKeys o).filter (fun k => !objHasOwn res k)).isEmpty
    · simp [hu] at h
      subst h
      refine ⟨fun _ => ?_, fun hwf => ?_⟩
      · rw [runRecordFields]; simp [hu]
      · rw [hres] at hwf; exact absurd hwf (by simp)
    · simp [hu, createFail] at h
      refine ⟨fun hwf => ?_, fun _ => ?_⟩
      · rw [← h] at hwf; simp [isFail_mkFail] at hwf
      · refine ⟨⟨"invalid keys in record " ++
            debugValue (.arr (((objKeys o).filter (fun k => !objHasOwn res k)).map JsVal.str)),
            topV, none⟩, ?_⟩
        rw [runRecordFields]
        simp [hu, createFail]
  | cons p rest ih =>
    obtain ⟨k, frt⟩ := p
    obtain ⟨value, hvalue⟩ := run_internal_ok frt (getFieldD o k)
    by_cases hf : isFail value = true
    · obtain ⟨g, hg, hgf⟩ := propagateFail_internal_isFail value topV (some (.str k))
      rw [runRecordFields, hvalue] at h
      simp [hf, hg] at h
      subst h
      constructor
      · intro hwf; rw [hgf] at hwf; simp [hf] at hwf
      · intro _
        rw [runRecordFields, hvalue]
        simp [hf, propagateFail]
    · rw [runRecordFields, hvalue] at h
      simp [hf] at h
      have hres2 : isFail (objSet res k value) = false := by
        rw [isFail_objSet]; exact hres
      have := ih (objSet res k value) hres2 h
      constructor
      · intro hwf
        rw [runRecordFields, hvalue]
        simp [hf]
        exact this.1 hwf
      · intro hwf
        obtain ⟨e, he⟩ := this.2 hwf
        refine ⟨e, ?_⟩
        rw [runRecordFields, hvalue]
        simp [hf]
        exact he

theorem cohArrayElems (item : Rt) (elems : List JsVal) (i : Nat)
    (topV : JsVal) (acc : List JsVal) (w : JsVal)
    (h : runArrayElems item elems i topV acc .internal = .ok w) :
    (isFail w = false → runArrayElems item elems i topV acc .external = .ok w) ∧
    (isFail w = true → ∃ e, runArrayElems item elems i topV acc .external = .error e) := by
  induction elems generalizing i acc with
  | nil =>
    rw [runArrayElems] at h ⊢
    simp at h
    subst h
    constructor
    · intro _; rfl
    · intro hwf; simp [isFail] at hwf
  | cons x rest ih =>
    obtain ⟨itemV, hitem⟩ := run_internal_ok item x
    by_cases hf : isFail itemV = true
    · obtain ⟨g, hg, hgf⟩ := propagateFail_internal_isFail itemV topV (some (.num (.int i)))
      rw [runArrayElems, hitem] at h
      simp [hf, hg] at h
      subst h
      constructor
      · intro hwf; rw [hgf] at hwf; simp [hf] at hwf
      · intro _
        rw [runArrayElems, hitem]
        simp [hf, propagateFail]
    · rw [runArrayElems, hitem] at h
      simp [hf] at h
      have := ih (i + 1) (acc ++ [itemV]) h
      constructor
      · intro hwf
        rw [runArrayElems, hitem]
        simp [hf]
        exact this.1 hwf
      · intro hwf
        obtain ⟨e, he⟩ := this.2 hwf
        refine ⟨e, ?_⟩
        rw [runArrayElems, hitem]
        simp [hf]
        exact he

theorem cohDictEntries (krt vrt : Rt) (entries : List (String × JsVal))
    (topV res w : JsVal) (pure : Bool)
    (hk : ∀ v', noFailSym v' = true → ∀ w', run krt v' .internal = .ok w' →
      (isFail w' = false → run krt v' .external = .ok w') ∧
      (isFail w' = true → ∃ e, run krt v' .external = .error e))
    (hv : ∀ v', noFailSym v' = true → ∀ w', run vrt v' .internal = .ok w' →
      (isFail w' = false → run vrt v' .external = .ok w') ∧
      (isFail w' = true → ∃ e, run vrt v' .external = .error e))
    (hvals : ∀ p ∈ entries, noFailSym p.2 = true)
    (hres : isFail res = false)
    (h : runDictEntries krt vrt entries topV res pure .internal = .ok w) :
    (isFail w = false → runDictEntries krt vrt entries topV res pure .external = .ok w) ∧
    (isFail w = true → ∃ e, runDictEntries krt vrt entries topV res pure .external = .error e) := by
  induction entries generalizing res with
  | nil =>
    rw [runDictEntries] at h ⊢
    simp at h
    subst h
    constructor
    · intro _; rfl
    · intro hwf; rw [hres] at hwf; exact absurd hwf (by simp)
  | cons p rest ih =>
    obtain ⟨k, val⟩ := p
    have hvalNoSym : noFailSym val = true := hvals (k, val) (by simp)
    have hrest : ∀ p ∈ rest, noFailSym p.2 = true := fun p hp => hvals p (by simp [hp])
    have hkNoSym : noFailSym (.str k) = true := by simp [noFailSym]
    by_cases hproto : (k == "__proto__") = true
    · rw [runDictEntries] at h
      simp [hproto, createFail] at h
      constructor
      · intro hwf; rw [← h] at hwf; simp at hwf
      · intro _
        rw [runDictEntries]
        simp [hproto, createFail]
    · obtain ⟨kw, hkw⟩ := run_internal_ok krt (.str k)
      by_cases hkf : isFail kw = true
      · obtain ⟨g, hg, hgf⟩ := propagateFail_internal_isFail kw topV none
        rw [runDictEntries, hkw] at h
        simp [hproto, hkf, hg] at h
        subst h
        constructor
        · intro hwf; rw [hgf] at hwf; simp [hkf] at hwf
        · intro _
          obtain ⟨e, he⟩ := (hk (.str k) hkNoSym kw hkw).2 hkf
          refine ⟨e, ?_⟩
          rw [runDictEntries, he]
          simp [hproto]
      · have hkwExt : run krt (.str k) .external = .ok kw :=
          (hk (.str k) hkNoSym kw hkw).1 (by simpa using hkf)
        obtain ⟨vw, hvw⟩ := run_internal_ok vrt val
        by_cases hvf : isFail vw = true
        · obtain ⟨g, hg, hgf⟩ := propagateFail_internal_isFail vw topV none
          rw [runDictEntries, hkw, hvw] at h
          simp [hproto, hkf, hvf, hg] at h
          subst h
          constructor
          · intro hwf; rw [hgf] at hwf; simp [hvf] at hwf
          · intro _
            obtain ⟨e, he⟩ := (hv val hvalNoSym vw hvw).2 hvf
            refine ⟨e, ?_⟩
            rw [runDictEntries, hkwExt, he]
            simp [hproto, hkf]
        · have hvwExt : run vrt val .external = .ok vw :=
            (hv val hvalNoSym vw hvw).1 (by simpa using hvf)
          rw [runDictEntries, hkw, hvw] at h
          simp [hproto, hkf, hvf] at h
          have hres2 : isFail (if pure then res else objSet res (jsToPropKey kw) vw) = false := by
            by_cases hp : pure = true
            · simp [hp, hres]
            · simp [hp, isFail_objSet, hres]
          have := ih (if pure then res else objSet res (jsToPropKey kw) vw) hrest hres2 h
          constructor
          · intro hwf
            rw [runDictEntries, hkwExt, hvwExt]
            simp [hproto, hkf, hvf]
            exact this.1 hwf
          · intro hwf
            obtain ⟨e, he⟩ := this.2 hwf
            refine ⟨e, ?_⟩
            rw [runDictEntries, hkwExt, hvwExt]
            simp [hproto, hkf, hvf]
            exact he

end SimpleRuntypes

namespace SimpleRuntypes

theorem isFail_of_jsStrictEq {v l : JsVal} (h : jsStrictEq v l = true) :
    isFail l = false := by
  cases l with
  | obj fs ss => cases v <;> simp [jsStrictEq] at h
  | undef => rfl
  | null => rfl
  | bool b => rfl
  | num n => rfl
  | str s => rfl
  | arr xs => cases v <;> simp [jsStrictEq] at h

theorem noFailSym_fields {fs : List (String × JsVal)} {ss : List (Sym × JsVal)}
    (h : noFailSym (.obj fs ss) = true) : ∀ p ∈ fs, noFailSym p.2 = true := by
  rw [noFailSym] at h
  simp at h
  intro p hp
  obtain ⟨a, b⟩ := p
  exact noFailSymFields_mem h.2 hp

theorem cohStringChecks (s : String) (maxLen : Option Nat) (trim : Bool)
    (matchP : Option (String → Bool)) (v w : JsVal)
    (h : runStringChecks s maxLen trim matchP v .internal = .ok w) :
    (isFail w = false → runStringChecks s maxLen trim matchP v .external = .ok w) ∧
    (isFail w = true → ∃ e, runStringChecks s maxLen trim matchP v .external = .error e) := by
  rw [runStringChecks.eq_def] at h
  rw [runStringChecks.eq_def]
  (repeat' split at h) <;>
    simp_all [createFail] <;>
    (try subst_vars) <;>
    (try simp_all) <;>
    (try ((repeat' split) <;> (first | simp | omega))) <;>
    (try omega)

set_option maxHeartbeats 4000000 in
/-- External mode mirrors internal mode on application values: if the
internal call returns a proper (non-marker) value, the external call
returns the very same value; if the internal call returns a failure
marker, the external call throws. -/
theorem extCoherence (rt : Rt) : ∀ v w, noFailSym v = true →
    run rt v .internal = .ok w →
    (isFail w = false → run rt v .external = .ok w) ∧
    (isFail w = true → ∃ e, run rt v .external = .error e) := by
  induction rt using Rt.strongRec with
  | _ rt IH =>
  cases rt with
  | booleanRt =>
    intro v w hnfs h
    cases v <;>
      simp_all [run, createFail, propagateFail_mkFail_internal,
        propagateFail_mkFail_external] <;>
      (try subst_vars) <;>
      simp_all [run, createFail]
  | integerRt minI maxI =>
    intro v w hnfs h
    rw [run.eq_def] at h
    rw [run.eq_def]
    cases v <;>
      simp_all [createFail, propagateFail_mkFail_internal,
        propagateFail_mkFail_external] <;>
      (try (repeat' split at h)) <;>
      (try subst_vars) <;>
      (try simp_all [createFail, propagateFail_mkFail_internal,
        propagateFail_mkFail_external]) <;>
      (try subst_vars) <;>
      (try simp_all [createFail, propagateFail_mkFail_internal,
        propagateFail_mkFail_external]) <;>
      (try ((repeat' split) <;> (first | simp | omega))) <;>
      (try omega)
  | stringRt minLen maxLen trim matchP =>
    intro v w hnfs h
    rw [run.eq_def] at h
    rw [run.eq_def]
    cases v <;>
      simp_all [createFail, propagateFail_mkFail_internal,
        propagateFail_mkFail_external] <;>
      (try (repeat' split at h)) <;>
      (try subst_vars) <;>
      (try simp_all [createFail, propagateFail_mkFail_internal,
        propagateFail_mkFail_external]) <;>
      (try subst_vars) <;>
      (try simp_all [createFail, propagateFail_mkFail_internal,
        propagateFail_mkFail_external]) <;>
      (try ((repeat' split) <;> (first | simp | omega))) <;>
      (try omega)
    all_goals try rw [if_neg (by omega)]
    all_goals exact cohStringChecks _ _ _ _ _ _ (by assumption)
  | stringAsIntegerRt minI maxI =>
    intro v w hnfs h
    rw [run.eq_def] at h
    rw [run.eq_def]
    cases v <;>
      simp_all [createFail, propagateFail_mkFail_internal,
        propagateFail_mkFail_external] <;>
      (try (repeat' split at h)) <;>
      (try subst_vars) <;>
      (try simp_all [createFail, propagateFail_mkFail_internal,
        propagateFail_mkFail_external]) <;>
      (try subst_vars) <;>
      (try simp_all [createFail, propagateFail_mkFail_internal,
        propagateFail_mkFail_external]) <;>
      (try ((repeat' split) <;> (first | simp | omega))) <;>
      (try omega)
  | literalRt lit =>
    intro v w hnfs h
    by_cases hl : jsStrictEq v lit = true
    · rw [run.eq_def] at h
      rw [run.eq_def]
      simp [hl] at h ⊢
      subst h
      have := isFail_of_jsStrictEq hl
      simp [this]
    · rw [run.eq_def] at h
      rw [run.eq_def]
      simp [hl, createFail] at h ⊢
      rw [← h]
      simp
  | unknownRt =>
    intro v w hnfs h
    simp [run] at h ⊢
    subst h
    simp [isFail_of_noFailSym hnfs]
  | ignoreRt =>
    intro v w hnfs h
    simp [run] at h ⊢
    subst h
    simp
  | optionalRt t =>
    intro v w hnfs h
    cases v
    case undef =>
      rw [run.eq_def] at h
      simp at h
      subst h
      rw [run.eq_def]
      simp
    all_goals
      rw [run.eq_def] at h
      rw [run.eq_def]
      simp at h ⊢
      exact IH t (by simp_arith) _ _ hnfs h
  | nullableRt t =>
    intro v w hnfs h
    cases v
    case null =>
      rw [run.eq_def] at h
      simp at h
      subst h
      rw [run.eq_def]
      simp
    all_goals
      rw [run.eq_def] at h
      rw [run.eq_def]
      simp at h ⊢
      exact IH t (by simp_arith) _ _ hnfs h
  | arrayRt item minLen maxLen =>
    intro v w hnfs h
    rw [run.eq_def] at h
    rw [run.eq_def]
    cases v <;>
      simp_all [createFail, propagateFail_mkFail_internal,
        propagateFail_mkFail_external] <;>
      (try (repeat' split at h)) <;>
      (try subst_vars) <;>
      (try simp_all [createFail, propagateFail_mkFail_internal,
        propagateFail_mkFail_external]) <;>
      (try subst_vars) <;>
      (try simp_all [createFail, propagateFail_mkFail_internal,
        propagateFail_mkFail_external]) <;>
      (try ((repeat' split) <;> (first | simp | omega))) <;>
      (try omega)
    all_goals try rw [if_neg (by omega)]
    all_goals try rw [if_neg (by omega)]
    all_goals exact cohArrayElems _ _ _ _ _ _ (by assumption)
  | recordRt fields =>
    intro v w hnfs h
    cases v with
    | obj fs ss =>
      have hne : isFail (.obj fs ss) = false := isFail_of_noFailSym hnfs
      rw [run.eq_def] at h
      rw [run.eq_def]
      simp [hne] at h ⊢
      exact cohRecordFields fields _ _ emptyObj w (by simp [emptyObj, isFail]) h
    | undef =>
      simp_all [run, createFail, propagateFail_mkFail_internal,
        propagateFail_mkFail_external] <;>
      (try subst_vars) <;>
      simp_all [run, createFail]
    | null =>
      simp_all [run, createFail, propagateFail_mkFail_internal,
        propagateFail_mkFail_external] <;>
      (try subst_vars) <;>
      simp_all [run, createFail]
    | bool b =>
      simp_all [run, createFail, propagateFail_mkFail_internal,
        propagateFail_mkFail_external] <;>
      (try subst_vars) <;>
      simp_all [run, createFail]
    | num n =>
      simp_all [run, createFail, propagateFail_mkFail_internal,
        propagateFail_mkFail_external] <;>
      (try subst_vars) <;>
      simp_all [run, createFail]
    | str s2 =>
      simp_all [run, createFail, propagateFail_mkFail_internal,
        propagateFail_mkFail_external] <;>
      (try subst_vars) <;>
      simp_all [run, createFail]
    | arr xs =>
      simp_all [run, createFail, propagateFail_mkFail_internal,
        propagateFail_mkFail_external] <;>
      (try subst_vars) <;>
      simp_all [run, createFail]
  | dictionaryRt krt vrt =>
    intro v w hnfs h
    cases v with
    | obj fs ss =>
      have hne : isFail (.obj fs ss) = false := isFail_of_noFailSym hnfs
      rw [run.eq_def] at h
      rw [run.eq_def]
      simp [hne] at h ⊢
      by_cases hss : ss.isEmpty = true
      · simp [hss] at h ⊢
        refine cohDictEntries krt vrt fs (.obj fs ss) _ w _
          (fun v' hn w' h' => IH krt (by simp_arith) v' w' hn h')
          (fun v' hn w' h' => IH vrt (by simp_arith) v' w' hn h')
          (noFailSym_fields hnfs) ?_ h
        by_cases hp : (isPureRt krt && isPureRt vrt) = true
        · have hp2 : isPureRt krt = true ∧ isPureRt vrt = true := by
            simpa [Bool.and_eq_true] using hp
          simp [hp2, hne]
        · have hp2 : ¬(isPureRt krt = true ∧ isPureRt vrt = true) := by
            simpa [Bool.and_eq_true] using hp
          simp [hp2, emptyObj, isFail]
      · simp [hss, createFail] at h ⊢
        rw [← h]
        simp
    | undef =>
      simp_all [run, createFail, propagateFail_mkFail_internal,
        propagateFail_mkFail_external] <;>
      (try subst_vars) <;>
      simp_all [run, createFail]
    | null =>
      simp_all [run, createFail, propagateFail_mkFail_internal,
        propagateFail_mkFail_external] <;>
      (try subst_vars) <;>
      simp_all [run, createFail]
    | bool b =>
      simp_all [run, createFail, propagateFail_mkFail_internal,
        propagateFail_mkFail_external] <;>
      (try subst_vars) <;>
      simp_all [run, createFail]
    | num n =>
      simp_all [run, createFail, propagateFail_mkFail_internal,
        propagateFail_mkFail_external] <;>
      (try subst_vars) <;>
      simp_all [run, createFail]
    | str s2 =>
      simp_all [run, createFail, propagateFail_mkFail_internal,
        propagateFail_mkFail_external] <;>
      (try subst_vars) <;>
      simp_all [run, createFail]
    | arr xs =>
      simp_all [run, createFail, propagateFail_mkFail_internal,
        propagateFail_mkFail_external] <;>
      (try subst_vars) <;>
      simp_all [run, createFail]
  | unionRt a rest =>
    intro v w hnfs h
    rw [run.eq_def] at h
    rw [run.eq_def]
    simp at h ⊢
    exact cohUnionAlts a rest v w h
  | discriminatedUnionRt key table =>
    intro v w hnfs h
    cases v with
    | obj fs ss =>
      have hne : isFail (.obj fs ss) = false := isFail_of_noFailSym hnfs
      rw [run.eq_def] at h
      rw [run.eq_def]
      simp [hne] at h ⊢
      rcases hLk2 : lookupTable table (getFieldD (.obj fs ss) key) with _ | rt2
      · simp [hLk2, runDiscAlt, createFail] at h ⊢
        rw [← h]
        simp
      · simp [hLk2, runDiscAlt] at h ⊢
        have hsz : sizeOf rt2 < sizeOf (Rt.discriminatedUnionRt key table) := by
          have := lookupTable_sizeOf hLk2
          simp_arith
          omega
        exact IH rt2 hsz _ _ hnfs h
    | undef =>
      simp_all [run, createFail, propagateFail_mkFail_internal,
        propagateFail_mkFail_external] <;>
      (try subst_vars) <;>
      simp_all [run, createFail]
    | null =>
      simp_all [run, createFail, propagateFail_mkFail_internal,
        propagateFail_mkFail_external] <;>
      (try subst_vars) <;>
      simp_all [run, createFail]
    | bool b =>
      simp_all [run, createFail, propagateFail_mkFail_internal,
        propagateFail_mkFail_external] <;>
      (try subst_vars) <;>
      simp_all [run, createFail]
    | num n =>
      simp_all [run, createFail, propagateFail_mkFail_internal,
        propagateFail_mkFail_external] <;>
      (try subst_vars) <;>
      simp_all [run, createFail]
    | str s2 =>
      simp_all [run, createFail, propagateFail_mkFail_internal,
        propagateFail_mkFail_external] <;>
      (try subst_vars) <;>
      simp_all [run, createFail]
    | arr xs =>
      simp_all [run, createFail, propagateFail_mkFail_internal,
        propagateFail_mkFail_external] <;>
      (try subst_vars) <;>
      simp_all [run, createFail]
  | intersectBaseRt a b =>
    intro v w hnfs h
    obtain ⟨wa, hwa⟩ := run_internal_ok a v
    obtain ⟨wb, hwb⟩ := run_internal_ok b v
    have cohA := IH a (by simp_arith) v wa hnfs hwa
    have cohB := IH b (by simp_arith) v wb hnfs hwb
    rw [run.eq_def] at h
    simp [hwa, hwb] at h
    by_cases hbf : isFail wb = true
    · obtain ⟨g, hg, hgf⟩ := propagateFail_internal_isFail wb v none
      simp [hbf, hg] at h
      subst h
      refine ⟨fun hwf => ?_, fun _ => ?_⟩
      · rw [hgf] at hwf; simp [hbf] at hwf
      · by_cases haf : isFail wa = true
        · obtain ⟨e, he⟩ := cohA.2 haf
          refine ⟨e, ?_⟩
          rw [run.eq_def]
          simp [he]
        · have haE := cohA.1 (by simpa using haf)
          obtain ⟨e, he⟩ := cohB.2 hbf
          refine ⟨e, ?_⟩
          rw [run.eq_def]
          simp [haE, he]
    · by_cases haf : isFail wa = true
      · obtain ⟨g, hg, hgf⟩ := propagateFail_internal_isFail wa v none
        simp [hbf, haf, hg] at h
        subst h
        refine ⟨fun hwf => ?_, fun _ => ?_⟩
        · rw [hgf] at hwf; simp [haf] at hwf
        · obtain ⟨e, he⟩ := cohA.2 haf
          refine ⟨e, ?_⟩
          rw [run.eq_def]
          simp [he]
      · simp [hbf, haf] at h
        subst h
        have haE := cohA.1 (by simpa using haf)
        have hbE := cohB.1 (by simpa using hbf)
        refine ⟨fun _ => ?_, fun hwf => ?_⟩
        · rw [run.eq_def]
          simp [haE, hbE, hbf, haf]
        · exact absurd hwf hbf

end SimpleRuntypes

namespace SimpleRuntypes

/-! ### External errors carry the top-level value

For dictionary-free runtypes, every error thrown by an external call
carries the original top-level input as its `value`.  (The dictionary
combinator passes the caller's mode to its key and value runtypes, so
an external error thrown inside a dictionary carries the sub-value.) -/

theorem propagateFail_external_value {f tv : JsVal} {key? : Option JsVal} {e : RuntypeErr}
    (h : propagateFail .external f tv key? = .error e) : e.value = tv := by
  simp [propagateFail] at h
  rw [← h]

theorem createFail_external_value {msg : String} {tv : JsVal} {e : RuntypeErr}
    (h : createFail .external msg tv = .error e) : e.value = tv := by
  simp [createFail] at h
  rw [← h]

theorem noDict_lookupTable {table : List (JsVal × Rt)} {tag : JsVal} {rt2 : Rt}
    (hnd : noDictTable table = true) (h : lookupTable table tag = some rt2) :
    noDictionary rt2 = true := by
  induction table with
  | nil => simp [lookupTable] at h
  | cons p rest ih =>
    obtain ⟨t, r⟩ := p
    rw [noDictTable] at hnd
    simp at hnd
    unfold lookupTable at h
    rw [List.find?_cons] at h
    by_cases hc : sameValueZero t tag = true
    · simp [hc] at h
      rw [← h]
      exact hnd.1
    · simp [hc] at h
      exact ih hnd.2 (by simpa [lookupTable] using h)

theorem errValRecordFields (fields : List (String × Rt)) (o topV res : JsVal)
    (e : RuntypeErr) (h : runRecordFields fields o topV res .external = .error e) :
    e.value = topV := by
  induction fields generalizing res with
  | nil =>
    rw [runRecordFields] at h
    by_cases hu : ((objKeys o).filter (fun k => !objHasOwn res k)).isEmpty
    · simp [hu] at h
    · simp [hu, createFail] at h
      rw [← h]
  | cons p rest ih =>
    obtain ⟨k, frt⟩ := p
    obtain ⟨value, hvalue⟩ := run_internal_ok frt (getFieldD o k)
    rw [runRecordFields, hvalue] at h
    by_cases hf : isFail value = true
    · simp [hf] at h
      exact propagateFail_external_value h
    · simp [hf] at h
      exact ih (objSet res k value) h

theorem errValArrayElems (item : Rt) (elems : List JsVal) (i : Nat)
    (topV : JsVal) (acc : List JsVal) (e : RuntypeErr)
    (h : runArrayElems item elems i topV acc .external = .error e) :
    e.value = topV := by
  induction elems generalizing i acc with
  | nil => rw [runArrayElems] at h; simp at h
  | cons x rest ih =>
    obtain ⟨itemV, hitem⟩ := run_internal_ok item x
    rw [runArrayElems, hitem] at h
    by_cases hf : isFail itemV = true
    · simp [hf] at h
      exact propagateFail_external_value h
    · simp [hf] at h
      exact ih (i + 1) (acc ++ [itemV]) h

theorem errValUnionAlts (a : Rt) (rest : List Rt) (v : JsVal) (e : RuntypeErr)
    (h : runUnionAlts (a :: rest) v .external = .error e) : e.value = v := by
  induction rest generalizing a with
  | nil =>
    obtain ⟨val, hval⟩ := run_internal_ok a v
    rw [runUnionAlts, hval] at h
    by_cases hf : isFail val = true
    · simp [hf] at h
      exact propagateFail_external_value h
    · simp [hf] at h
  | cons b rest2 ih =>
    obtain ⟨val, hval⟩ := run_internal_ok a v
    rw [runUnionAlts, hval] at h
    by_cases hf : isFail val = true
    · simp [hf] at h
      exact ih b h
    · simp [hf] at h

set_option maxHeartbeats 4000000 in
/-- For dictionary-free runtypes, an externally thrown error always
carries the original top-level input value, never a sub-value. -/
theorem extErrValue (rt : Rt) : noDictionary rt = true →
    ∀ v e, run rt v .external = .error e → e.value = v := by
  induction rt using Rt.strongRec with
  | _ rt IH =>
  cases rt with
  | booleanRt =>
    intro _ v e h
    cases v <;>
      simp_all [run, createFail] <;>
      (try subst_vars) <;>
      (try simp_all)
  | integerRt minI maxI =>
    intro _ v e h
    rw [run.eq_def] at h
    cases v <;>
      simp_all [createFail, propagateFail] <;>
      (try (repeat' split at h)) <;>
      (try simp_all [createFail, propagateFail]) <;>
      (try subst_vars) <;>
      (try simp_all)
  | stringRt minLen maxLen trim matchP =>
    intro _ v e h
    rw [run.eq_def] at h
    cases v <;>
      simp_all [createFail, propagateFail, runStringChecks] <;>
      (try (repeat' split at h)) <;>
      (try simp_all [createFail, propagateFail]) <;>
      (try subst_vars) <;>
      (try simp_all)
  | stringAsIntegerRt minI maxI =>
    intro _ v e h
    rw [run.eq_def] at h
    cases v <;>
      simp_all [createFail, propagateFail] <;>
      (try (repeat' split at h)) <;>
      (try simp_all [createFail, propagateFail]) <;>
      (try subst_vars) <;>
      (try simp_all)
  | literalRt lit =>
    intro _ v e h
    rw [run.eq_def] at h
    by_cases hl : jsStrictEq v lit = true <;>
      simp_all [createFail] <;>
      (try subst_vars) <;>
      (try simp_all)
  | unknownRt =>
    intro _ v e h
    simp [run] at h
  | ignoreRt =>
    intro _ v e h
    simp [run] at h
  | optionalRt t =>
    intro hnd v e h
    rw [noDictionary] at hnd
    cases v
    case undef => rw [run.eq_def] at h; simp at h
    all_goals
      rw [run.eq_def] at h
      simp at h
      exact IH t (by simp_arith) hnd _ _ h
  | nullableRt t =>
    intro hnd v e h
    rw [noDictionary] at hnd
    cases v
    case null => rw [run.eq_def] at h; simp at h
    all_goals
      rw [run.eq_def] at h
      simp at h
      exact IH t (by simp_arith) hnd _ _ h
  | arrayRt item minLen maxLen =>
    intro _ v e h
    rw [run.eq_def] at h
    cases v with
    | arr xs =>
      simp at h
      (repeat' split at h) <;>
        first
          | (simp [createFail] at h; rw [← h])
          | exact errValArrayElems _ _ _ _ _ _ h
    | undef => simp_all [createFail]; rw [← h]
    | null => simp_all [createFail]; rw [← h]
    | bool b => simp_all [createFail]; rw [← h]
    | num n => simp_all [createFail]; rw [← h]
    | str s => simp_all [createFail]; rw [← h]
    | obj fs ss => simp_all [createFail]; rw [← h]
  | recordRt fields =>
    intro _ v e h
    rw [run.eq_def] at h
    cases v with
    | obj fs ss =>
      simp at h
      by_cases hif : isFail (.obj fs ss) = true
      · simp [hif] at h
        exact propagateFail_external_value h
      · simp [hif] at h
        exact errValRecordFields _ _ _ _ _ h
    | undef => simp_all [createFail]; rw [← h]
    | null => simp_all [createFail]; rw [← h]
    | bool b => simp_all [createFail]; rw [← h]
    | num n => simp_all [createFail]; rw [← h]
    | str s => simp_all [createFail]; rw [← h]
    | arr xs => simp_all [createFail]; rw [← h]
  | dictionaryRt krt vrt =>
    intro hnd v e h
    rw [noDictionary] at hnd
    exact absurd hnd (by simp)
  | unionRt a rest =>
    intro _ v e h
    rw [run.eq_def] at h
    simp at h
    exact errValUnionAlts a rest v e h
  | discriminatedUnionRt key table =>
    intro hnd v e h
    rw [noDictionary] at hnd
    rw [run.eq_def] at h
    cases v with
    | obj fs ss =>
      simp at h
      by_cases hif : isFail (.obj fs ss) = true
      · simp [hif] at h
        exact propagateFail_external_value h
      · simp [hif] at h
        rcases hLk2 : lookupTable table (getFieldD (.obj fs ss) key) with _ | rt2
        · simp [hLk2, runDiscAlt, createFail] at h
          rw [← h]
        · simp [hLk2, runDiscAlt] at h
          have hsz : sizeOf rt2 < sizeOf (Rt.discriminatedUnionRt key table) := by
            have := lookupTable_sizeOf hLk2
            simp_arith
            omega
          exact IH rt2 hsz (noDict_lookupTable hnd hLk2) _ _ h
    | undef => simp_all [createFail]; rw [← h]
    | null => simp_all [createFail]; rw [← h]
    | bool b => simp_all [createFail]; rw [← h]
    | num n => simp_all [createFail]; rw [← h]
    | str s => simp_all [createFail]; rw [← h]
    | arr xs => simp_all [createFail]; rw [← h]
  | intersectBaseRt a b =>
    intro hnd v e h
    rw [noDictionary] at hnd
    simp [Bool.and_eq_true] at hnd
    rw [run.eq_def] at h
    simp at h
    rcases ha : run a v .external with ea | wa
    · rw [ha] at h
      simp at h
      subst h
      exact IH a (by simp_arith) hnd.1 _ _ ha
    · rw [ha] at h
      rcases hb : run b v .external with eb | wb
      · rw [hb] at h
        simp at h
        subst h
        exact IH b (by simp_arith) hnd.2 _ _ hb
      · rw [hb] at h
        simp at h
        by_cases hbf : isFail wb = true
        · simp [hbf] at h
          exact propagateFail_external_value h
        · simp [hbf] at h
          by_cases haf : isFail wa = true
          · simp [haf] at h
            exact propagateFail_external_value h
          · simp [haf] at h

end SimpleRuntypes

namespace SimpleRuntypes

/-- Claim C1: every runtype invoked in INTERNAL mode returns a value and
never throws — on invalid input that value is the failure marker — and a
`RuntypeError` is thrown only by an EXTERNAL call, exactly once per
external call, produced from the failure marker (on application values,
an external call throws exactly when the internal call yields a marker,
and returns the identical value otherwise). -/
theorem claim_C1 :
    (∀ rt v, ∃ w, run rt v .internal = .ok w) ∧
    (∀ rt v w, noFailSym v = true → run rt v .internal = .ok w →
      (isFail w = true → ∃ e, run rt v .external = .error e) ∧
      (isFail w = false → run rt v .external = .ok w)) :=
  ⟨run_internal_ok, fun rt v w hn h =>
    ⟨(extCoherence rt v w hn h).2, (extCoherence rt v w hn h).1⟩⟩

/-- Witness for C1 at a concrete runtype and input: `integer()` applied
to the string "x" returns the marker internally and throws externally. -/
theorem claim_C1_witness :
    (∃ w, run (.integerRt none none) (.str "x") .internal = .ok w) ∧
    (∃ e, run (.integerRt none none) (.str "x") .external = .error e) := by
  constructor
  · exact claim_C1.1 (.integerRt none none) (.str "x")
  · refine (claim_C1.2 (.integerRt none none) (.str "x")
      (mkFail "expected a safe integer" []) (by simp [noFailSym]) ?_).1 (by simp)
    simp [run, createFail, propagateFail_mkFail_internal]

/-- Counterexample to claim C2 as stated: the dictionary combinator
validates its values with the caller's mode, so
`dictionary(string(), integer())` validating `{a: "x"}` externally
throws an error whose value is the intermediate sub-value `"x"` — not
the original top-level object — and whose path is absent despite the
failure occurring one level deep. -/
theorem claim_C2_counterexample :
    run (.dictionaryRt (.stringRt none none false none) (.integerRt none none))
      (.obj [("a", .str "x")] []) .external
      = .error ⟨"expected a safe integer", .str "x", none⟩ ∧
    JsVal.str "x" ≠ JsVal.obj [("a", .str "x")] [] := by
  constructor
  · simp [run, runDictEntries, isPureRt, isFail, emptyObj, objSet, setAssoc,
      getFieldD, getField, createFail, propagateFail, mkFail, isSafeInteger,
      runStringChecks]
  · intro hcontra
    cases hcontra

/-- Claim C2, amended: `propagateFail` appends the given key (array
index or field name) to the marker's path and, at the external
boundary, throws with the path reversed into root-to-leaf order
(absent when the failure is at the root); for dictionary-free runtypes
the thrown error carries the original top-level input value; in
particular `array(record({a: integer()}))` validating
`[{a: 1}, {a: "x"}]` externally throws with path `[1, "a"]` and the
original array as value.  The dictionary combinator is the exception:
it validates entries in the caller's mode, so an external error thrown
inside it carries the sub-value and no path. -/
theorem claim_C2_amended :
    (∀ r p tv key?, propagateFail .external (mkFail r p) tv key? =
      .error ⟨r, tv, if (p ++ key?.toList).isEmpty then none
        else some (p ++ key?.toList).reverse⟩) ∧
    (∀ rt, noDictionary rt = true →
      ∀ v e, run rt v .external = .error e → e.value = v) ∧
    (run (.arrayRt (.recordRt [("a", .integerRt none none)]) none none)
        (.arr [.obj [("a", .num (.int 1))] [], .obj [("a", .str "x")] []]) .external
      = .error ⟨"expected a safe integer",
          .arr [.obj [("a", .num (.int 1))] [], .obj [("a", .str "x")] []],
          some [.num (.int 1), .str "a"]⟩) := by
  refine ⟨propagateFail_mkFail_external, extErrValue, ?_⟩
  simp [run, runArrayElems, runRecordFields, isFail, emptyObj, objSet,
    setAssoc, getFieldD, getField, objKeys, objHasOwn, createFail, propagateFail,
    mkFail, failPath, failReason, isSafeInteger]

/-- Witness for the amended C2: the array-of-records runtype from the
claim's example is dictionary-free, and on the failing input the
externally thrown error indeed carries the original top-level array. -/
theorem claim_C2_amended_witness :
    noDictionary (.arrayRt (.recordRt [("a", .integerRt none none)]) none none) = true ∧
    RuntypeErr.value ⟨"expected a safe integer",
        .arr [.obj [("a", .num (.int 1))] [], .obj [("a", .str "x")] []],
        some [.num (.int 1), .str "a"]⟩
      = .arr [.obj [("a", .num (.int 1))] [], .obj [("a", .str "x")] []] := by
  constructor
  · simp [noDictionary, noDictFields]
  · exact claim_C2_amended.2.1 _ (by simp [noDictionary, noDictFields]) _ _
      claim_C2_amended.2.2

end SimpleRuntypes

namespace SimpleRuntypes

theorem unionAlts_first_success (pre : List Rt) (x : Rt) (suf : List Rt)
    (v w : JsVal) (m : Mode)
    (hpre : ∀ r ∈ pre, ∃ f, run r v .internal = .ok f ∧ isFail f = true)
    (hx : run x v .internal = .ok w) (hw : isFail w = false) :
    runUnionAlts (pre ++ x :: suf) v m = .ok w := by
  induction pre with
  | nil =>
    cases suf with
    | nil =>
      simp only [List.nil_append]
      rw [runUnionAlts, hx]
      simp [hw]
    | cons b suf2 =>
      simp only [List.nil_append]
      rw [runUnionAlts, hx]
      simp [hw]
  | cons p pre2 ih =>
    obtain ⟨f, hf, hff⟩ := hpre p (by simp)
    have hrest : ∀ r ∈ pre2, ∃ f, run r v .internal = .ok f ∧ isFail f = true :=
      fun r hr => hpre r (by simp [hr])
    have hne : pre2 ++ x :: suf ≠ [] := by simp
    rcases hlist : pre2 ++ x :: suf with _ | ⟨b, rest2⟩
    · exact absurd hlist hne
    · have := ih hrest
      rw [hlist] at this
      simp only [List.cons_append, hlist]
      rw [runUnionAlts, hf]
      simp [hff]
      exact this

theorem unionAlts_all_fail (init : List Rt) (z : Rt) (v : JsVal) (m : Mode)
    (f : JsVal)
    (hinit : ∀ r ∈ init, ∃ g, run r v .internal = .ok g ∧ isFail g = true)
    (hz : run z v .internal = .ok f) (hf : isFail f = true) :
    runUnionAlts (init ++ [z]) v m = propagateFail m f v none := by
  induction init with
  | nil =>
    simp only [List.nil_append]
    rw [runUnionAlts, hz]
    simp [hf]
  | cons p init2 ih =>
    obtain ⟨g, hg, hgf⟩ := hinit p (by simp)
    have hrest : ∀ r ∈ init2, ∃ g, run r v .internal = .ok g ∧ isFail g = true :=
      fun r hr => hinit r (by simp [hr])
    have hne : init2 ++ [z] ≠ [] := by simp
    rcases hlist : init2 ++ [z] with _ | ⟨b, rest2⟩
    · exact absurd hlist hne
    · have := ih hrest
      rw [hlist] at this
      simp only [List.cons_append, hlist]
      rw [runUnionAlts, hg]
      simp [hgf]
      exact this

/-- Claim C5: a union tries its alternatives in declaration order in
INTERNAL mode and returns the first success; when every alternative
fails, the propagated failure is the last alternative's failure — in
particular `union(literal(1), literal(2))` validating `3` reports the
failure of `literal(2)`. -/
theorem claim_C5 :
    (∀ (pre suf : List Rt) (x a : Rt) (rest : List Rt) (v w : JsVal) (m : Mode),
      a :: rest = pre ++ x :: suf →
      (∀ r ∈ pre, ∃ f, run r v .internal = .ok f ∧ isFail f = true) →
      run x v .internal = .ok w → isFail w = false →
      run (.unionRt a rest) v m = .ok w) ∧
    (∀ (init : List Rt) (z a : Rt) (rest : List Rt) (v f : JsVal) (m : Mode),
      a :: rest = init ++ [z] →
      (∀ r ∈ init, ∃ g, run r v .internal = .ok g ∧ isFail g = true) →
      run z v .internal = .ok f → isFail f = true →
      run (.unionRt a rest) v m = propagateFail m f v none) ∧
    (run (.unionRt (.literalRt (.num (.int 1))) [.literalRt (.num (.int 2))])
        (.num (.int 3)) .internal
      = .ok (mkFail "expected a literal: 2" [])) := by
  refine ⟨?_, ?_, ?_⟩
  · intro pre suf x a rest v w m hdecomp hpre hx hw
    rw [run.eq_def]
    simp only []
    rw [hdecomp]
    exact unionAlts_first_success pre x suf v w m hpre hx hw
  · intro init z a rest v f m hdecomp hinit hz hf
    rw [run.eq_def]
    simp only []
    rw [hdecomp]
    exact unionAlts_all_fail init z v m f hinit hz hf
  · simp [run, runUnionAlts, jsStrictEq, createFail,
      propagateFail_mkFail_internal, debugValue, jsonStringify,
      show toString (1 : Int) = "1" from rfl, show toString (2 : Int) = "2" from rfl,
      show ("1" : String).length = 1 from rfl, show ("2" : String).length = 1 from rfl]

/-- Witness for C5: `union(literal(1), literal(2))` validating `2`
succeeds with the second alternative after the first fails, and the
all-fail clause instantiated on input `3` reproduces the example. -/
theorem claim_C5_witness :
    run (.unionRt (.literalRt (.num (.int 1))) [.literalRt (.num (.int 2))])
      (.num (.int 2)) .internal = .ok (.num (.int 2)) ∧
    run (.unionRt (.literalRt (.num (.int 1))) [.literalRt (.num (.int 2))])
      (.num (.int 3)) .internal
      = propagateFail .internal (mkFail "expected a literal: 2" []) (.num (.int 3)) none := by
  constructor
  · refine claim_C5.1 [.literalRt (.num (.int 1))] [] (.literalRt (.num (.int 2)))
      _ _ _ _ .internal rfl ?_ ?_ ?_
    · intro r hr
      refine ⟨mkFail "expected a literal: 1" [], ?_, by simp⟩
      simp at hr
      subst hr
      simp [run, jsStrictEq, createFail, debugValue, jsonStringify,
        show toString (1 : Int) = "1" from rfl, show toString (2 : Int) = "2" from rfl,
        show ("1" : String).length = 1 from rfl, show ("2" : String).length = 1 from rfl]
    · simp [run, jsStrictEq]
    · simp
  · refine claim_C5.2.1 [.literalRt (.num (.int 1))] (.literalRt (.num (.int 2)))
      _ _ _ _ .internal rfl ?_ ?_ ?_
    · intro r hr
      refine ⟨mkFail "expected a literal: 1" [], ?_, by simp⟩
      simp at hr
      subst hr
      simp [run, jsStrictEq, createFail, debugValue, jsonStringify,
        show toString (1 : Int) = "1" from rfl, show toString (2 : Int) = "2" from rfl,
        show ("1" : String).length = 1 from rfl, show ("2" : String).length = 1 from rfl]
    · simp [run, jsStrictEq, createFail, debugValue, jsonStringify,
        show toString (1 : Int) = "1" from rfl, show toString (2 : Int) = "2" from rfl,
        show ("1" : String).length = 1 from rfl, show ("2" : String).length = 1 from rfl]
    · simp

end SimpleRuntypes

namespace SimpleRuntypes

theorem sameValueZero_trans {a b c : JsVal}
    (h1 : sameValueZero a b = true) (h2 : sameValueZero b c = true) :
    sameValueZero a c = true := by
  cases a <;> cases b <;> cases c <;>
    try ((rename JsNum => n1; cases n1) <;>
      try ((rename JsNum => n2; cases n2) <;>
        try (rename JsNum => n3; cases n3)))
  all_goals simp_all [sameValueZero, jsStrictEq]

theorem lookupTable_cons (t : JsVal) (r : Rt) (rest : List (JsVal × Rt))
    (tag : JsVal) :
    lookupTable ((t, r) :: rest) tag =
      if sameValueZero t tag then some r else lookupTable rest tag := by
  unfold lookupTable
  rw [List.find?_cons]
  by_cases hct : sameValueZero t tag = true
  · simp [hct]
  · simp [hct]

theorem lookupTable_tableSet_none {tbl : List (JsVal × Rt)} {l : JsVal}
    {r : Rt} {tag : JsVal}
    (h : lookupTable (tableSet tbl l r) tag = none) :
    sameValueZero l tag = false ∧ lookupTable tbl tag = none := by
  induction tbl with
  | nil =>
    rw [show tableSet [] l r = [(l, r)] from rfl, lookupTable_cons] at h
    refine ⟨?_, by simp [lookupTable]⟩
    cases hl : sameValueZero l tag with
    | false => rfl
    | true => simp [hl] at h
  | cons p rest ih =>
    obtain ⟨t, rr⟩ := p
    by_cases hc : sameValueZero t l = true
    · rw [show tableSet ((t, rr) :: rest) l r = (t, r) :: rest from by
        simp [tableSet, hc], lookupTable_cons] at h
      by_cases hct : sameValueZero t tag = true
      · simp [hct] at h
      · rw [if_neg hct] at h
        refine ⟨?_, ?_⟩
        · cases hl : sameValueZero l tag with
          | false => rfl
          | true => exact absurd (sameValueZero_trans hc hl) (by simp [hct])
        · rw [lookupTable_cons, if_neg hct]
          exact h
    · rw [show tableSet ((t, rr) :: rest) l r = (t, rr) :: tableSet rest l r from by
        simp [tableSet, hc], lookupTable_cons] at h
      by_cases hct : sameValueZero t tag = true
      · simp [hct] at h
      · rw [if_neg hct] at h
        obtain ⟨h1, h2⟩ := ih h
        exact ⟨h1, by rw [lookupTable_cons, if_neg hct]; exact h2⟩

theorem buildDU_ok_none {key : String} {alts : List Rt}
    {acc tbl : List (JsVal × Rt)} {tag : JsVal}
    (hb : buildDiscriminatedUnion key alts acc = .ok tbl)
    (hn : lookupTable tbl tag = none) :
    (∀ t ∈ alts, ∀ fields frt l, fieldsMetaOf t = some fields →
      lookupField fields key = some frt → literalMetaOf frt = some l →
      sameValueZero l tag = false) ∧ lookupTable acc tag = none := by
  induction alts generalizing acc with
  | nil =>
    simp [buildDiscriminatedUnion] at hb
    subst hb
    exact ⟨by simp, hn⟩
  | cons t rest ih =>
    rw [buildDiscriminatedUnion] at hb
    rcases hf : fieldsMetaOf t with _ | fields <;> simp only [hf] at hb
    · exact absurd hb (by simp)
    rcases hlk : (fields.find? (fun p => p.1 == key)).map Prod.snd
        with _ | frt <;> simp only [hlk] at hb
    · exact absurd hb (by simp)
    rcases hm : literalMetaOf frt with _ | l <;> simp only [hm] at hb
    · exact absurd hb (by simp)
    have step : ∀ tg : JsVal, tg = l →
        buildDiscriminatedUnion key rest (tableSet acc tg t) = .ok tbl →
        (∀ t2 ∈ t :: rest, ∀ fields2 frt2 l2, fieldsMetaOf t2 = some fields2 →
          lookupField fields2 key = some frt2 → literalMetaOf frt2 = some l2 →
          sameValueZero l2 tag = false) ∧ lookupTable acc tag = none := by
      intro tg htgl hb2
      obtain ⟨hrest, haccset⟩ := ih hb2
      obtain ⟨hlt, hacc⟩ := lookupTable_tableSet_none haccset
      refine ⟨?_, hacc⟩
      intro t2 ht2 fields2 frt2 l2 hf2 hlk2 hm2
      rcases List.mem_cons.mp ht2 with h | h
      · subst h
        rw [hf] at hf2
        injection hf2 with hf2
        subst hf2
        have hlk2' : (fields.find? (fun p => p.1 == key)).map Prod.snd
            = some frt2 := hlk2
        rw [hlk] at hlk2'
        injection hlk2' with hlk2'
        subst hlk2'
        rw [hm] at hm2
        injection hm2 with hm2
        subst hm2
        exact htgl ▸ hlt
      · exact hrest t2 h fields2 frt2 l2 hf2 hlk2 hm2
    cases l with
    | undef => simp at hb
    | null => simp at hb
    | bool b => simp at hb
    | arr xs => simp at hb
    | obj fs ss => simp at hb
    | str s => exact step (.str s) rfl hb
    | num n => exact step (.num n) rfl hb

theorem buildDU_usage (key : String) (alts : List Rt) (acc : List (JsVal × Rt))
    (h1 : ∀ t ∈ alts, ∃ fields frt, fieldsMetaOf t = some fields ∧
      lookupField fields key = some frt)
    (h2 : ∃ t ∈ alts, ∀ fields frt, fieldsMetaOf t = some fields →
      lookupField fields key = some frt → tagLiteralOk frt = false) :
    ∃ msg, buildDiscriminatedUnion key alts acc = .error (.usage msg) := by
  induction alts generalizing acc with
  | nil =>
    obtain ⟨t, ht, _⟩ := h2
    simp at ht
  | cons t rest ih =>
    obtain ⟨fields, frt, hf, hlk⟩ := h1 t (by simp)
    have hlk' : (fields.find? (fun p => p.1 == key)).map Prod.snd = some frt := hlk
    by_cases hgood : tagLiteralOk frt = true
    · rcases hm : literalMetaOf frt with _ | l
      · rw [tagLiteralOk, hm] at hgood
        simp at hgood
      · have next : ∀ tg : JsVal,
            buildDiscriminatedUnion key (t :: rest) acc
              = buildDiscriminatedUnion key rest (tableSet acc tg t) →
            ∃ msg, buildDiscriminatedUnion key (t :: rest) acc
              = .error (.usage msg) := by
          intro tg heq
          rw [heq]
          obtain ⟨t2, ht2, hbad⟩ := h2
          rcases List.mem_cons.mp ht2 with he | hr
          · subst he
            exact absurd (hbad fields frt hf hlk) (by simp [hgood])
          · exact ih (tableSet acc tg t) (fun r hr2 => h1 r (by simp [hr2])) ⟨t2, hr, hbad⟩
        cases l with
        | str s =>
          exact next (.str s) (by simp only [buildDiscriminatedUnion, hf, hlk', hm])
        | num n =>
          exact next (.num n) (by simp only [buildDiscriminatedUnion, hf, hlk', hm])
        | undef =>
          rw [tagLiteralOk, hm] at hgood
          simp at hgood
        | null =>
          rw [tagLiteralOk, hm] at hgood
          simp at hgood
        | bool b =>
          rw [tagLiteralOk, hm] at hgood
          simp at hgood
        | arr xs =>
          rw [tagLiteralOk, hm] at hgood
          simp at hgood
        | obj fs ss =>
          rw [tagLiteralOk, hm] at hgood
          simp at hgood
    · rcases hm : literalMetaOf frt with _ | l
      · exact ⟨"broken record type definition, the field " ++ key ++
          " is not a literal", by simp only [buildDiscriminatedUnion, hf, hlk', hm]⟩
      · cases l with
        | undef =>
          exact ⟨"broken record type definition, the field " ++ key ++
            " is not a literal", by simp only [buildDiscriminatedUnion, hf, hlk', hm]⟩
        | null =>
          exact ⟨"broken record type definition, the field " ++ key ++
            " must be a string or number, not " ++ debugValue .null,
            by simp only [buildDiscriminatedUnion, hf, hlk', hm]⟩
        | bool b =>
          exact ⟨"broken record type definition, the field " ++ key ++
            " must be a string or number, not " ++ debugValue (.bool b),
            by simp only [buildDiscriminatedUnion, hf, hlk', hm]⟩
        | arr xs =>
          exact ⟨"broken record type definition, the field " ++ key ++
            " must be a string or number, not " ++ debugValue (.arr xs),
            by simp only [buildDiscriminatedUnion, hf, hlk', hm]⟩
        | obj fs ss =>
          exact ⟨"broken record type definition, the field " ++ key ++
            " must be a string or number, not " ++ debugValue (.obj fs ss),
            by simp only [buildDiscriminatedUnion, hf, hlk', hm]⟩
        | str s =>
          exact absurd (by rw [tagLiteralOk, hm] : tagLiteralOk frt = true) hgood
        | num n =>
          exact absurd (by rw [tagLiteralOk, hm] : tagLiteralOk frt = true) hgood

/-- Claim C6: `discriminatedUnion` builds its tag-to-alternative lookup
table at construction time: (1) if every alternative is a record
declaring the discriminant key but some alternative's field runtype at
that key carries no literal, or a literal that is not a string or
number, construction is a `RuntypeUsageError`; (2) at validation time
an object whose discriminant value is not in the table fails via
`createFail` with a reason naming the tag value; (3) an object whose
discriminant value is in the table is validated entirely by the
matching alternative (same value, same mode); (4) a successfully built
table registers every alternative's tag literal: a tag absent from the
table matches no alternative's literal. -/
theorem claim_C6 :
    (∀ (key : String) (alts : List Rt) (acc : List (JsVal × Rt)),
      (∀ t ∈ alts, ∃ fields frt, fieldsMetaOf t = some fields ∧
        lookupField fields key = some frt) →
      (∃ t ∈ alts, ∀ fields frt, fieldsMetaOf t = some fields →
        lookupField fields key = some frt → tagLiteralOk frt = false) →
      ∃ msg, buildDiscriminatedUnion key alts acc = .error (.usage msg)) ∧
    (∀ (key : String) (table : List (JsVal × Rt)) (fs : List (String × JsVal))
        (ss : List (Sym × JsVal)) (m : Mode),
      isFail (.obj fs ss) = false →
      lookupTable table (getFieldD (.obj fs ss) key) = none →
      run (.discriminatedUnionRt key table) (.obj fs ss) m
        = createFail m ("no Runtype found for discriminated union tag " ++ key ++
            ": " ++ debugValue (getFieldD (.obj fs ss) key)) (.obj fs ss)) ∧
    (∀ (key : String) (table : List (JsVal × Rt)) (fs : List (String × JsVal))
        (ss : List (Sym × JsVal)) (m : Mode) (rt2 : Rt),
      isFail (.obj fs ss) = false →
      lookupTable table (getFieldD (.obj fs ss) key) = some rt2 →
      run (.discriminatedUnionRt key table) (.obj fs ss) m
        = run rt2 (.obj fs ss) m) ∧
    (∀ (key : String) (alts : List Rt) (tbl : List (JsVal × Rt)) (tag : JsVal),
      buildDiscriminatedUnion key alts [] = .ok tbl →
      lookupTable tbl tag = none →
      ∀ t ∈ alts, ∀ fields frt l, fieldsMetaOf t = some fields →
        lookupField fields key = some frt → literalMetaOf frt = some l →
        sameValueZero l tag = false) := by
  refine ⟨buildDU_usage, ?_, ?_, ?_⟩
  · intro key table fs ss m hF hLk
    rw [run.eq_def]
    simp only [hF, Bool.false_eq_true, if_false, hLk, runDiscAlt]
  · intro key table fs ss m rt2 hF hLk
    rw [run.eq_def]
    simp only [hF, Bool.false_eq_true, if_false, hLk, runDiscAlt]
  · intro key alts tbl tag hb hn
    exact (buildDU_ok_none hb hn).1

/-- Witness for C6: a single-alternative union over
`record({k: literal(true)})` hits the construction-time usage error; at
validation time, over the table `{"a" ↦ boolean()}`, the object
`{k: "b"}` fails with the unknown-tag reason and the object `{k: "a"}`
is delegated to `boolean()`; and the tag `"a"` registered from
`record({k: literal("a")})` does not match the absent tag `"zzz"`. -/
theorem claim_C6_witness :
    (∃ msg, buildDiscriminatedUnion "k" [.recordRt [("k", .literalRt (.bool true))]] []
      = .error (.usage msg)) ∧
    run (.discriminatedUnionRt "k" [(.str "a", .booleanRt)])
        (.obj [("k", .str "b")] []) .internal
      = createFail .internal ("no Runtype found for discriminated union tag " ++ "k" ++
          ": " ++ debugValue (.str "b")) (.obj [("k", .str "b")] []) ∧
    run (.discriminatedUnionRt "k" [(.str "a", .booleanRt)])
        (.obj [("k", .str "a")] []) .internal
      = run .booleanRt (.obj [("k", .str "a")] []) .internal ∧
    sameValueZero (.str "a") (.str "zzz") = false := by
  refine ⟨?_, ?_, ?_, ?_⟩
  · refine claim_C6.1 "k" [.recordRt [("k", .literalRt (.bool true))]] [] ?_ ?_
    · intro t ht
      simp at ht
      subst ht
      exact ⟨[("k", .literalRt (.bool true))], .literalRt (.bool true), rfl, rfl⟩
    · refine ⟨.recordRt [("k", .literalRt (.bool true))], by simp, ?_⟩
      intro fields frt hf hlk
      simp [fieldsMetaOf] at hf
      subst hf
      simp [lookupField, List.find?] at hlk
      subst hlk
      rfl
  · refine claim_C6.2.1 "k" [(.str "a", .booleanRt)] [("k", .str "b")] [] .internal rfl ?_
    simp [lookupTable, getFieldD, getField, sameValueZero, jsStrictEq, List.find?]
  · refine claim_C6.2.2.1 "k" [(.str "a", .booleanRt)] [("k", .str "a")] [] .internal
      .booleanRt rfl ?_
    simp [lookupTable, getFieldD, getField, sameValueZero, jsStrictEq, List.find?]
  · exact claim_C6.2.2.2 "k" [.recordRt [("k", .literalRt (.str "a"))]]
      [(.str "a", .recordRt [("k", .literalRt (.str "a"))])] (.str "zzz")
      rfl rfl (.recordRt [("k", .literalRt (.str "a"))]) (by simp)
      [("k", .literalRt (.str "a"))] (.literalRt (.str "a")) (.str "a") rfl rfl rfl

end SimpleRuntypes

namespace SimpleRuntypes

theorem strBeqFalse {a b : String} (h : ¬ a = b) : (a == b) = false := by
  cases hb : a == b
  · rfl
  · exact absurd (eq_of_beq hb) h

theorem getField_obj (fs : List (String × JsVal)) (ss : List (Sym × JsVal))
    (k : String) :
    getField (.obj fs ss) k = (fs.find? (fun p => p.1 == k)).map Prod.snd := rfl

theorem find?_setAssoc (fs : List (String × JsVal)) (k k2 : String) (x : JsVal) :
    List.find? (fun p => p.1 == k2) (setAssoc fs k x)
      = if k2 = k then some (k, x) else List.find? (fun p => p.1 == k2) fs := by
  induction fs with
  | nil =>
    rw [show setAssoc [] k x = [(k, x)] from rfl, List.find?_cons]
    by_cases hk : k2 = k
    · subst hk
      simp
    · simp [strBeqFalse (fun h : k = k2 => hk h.symm), hk]
  | cons p rest ih =>
    obtain ⟨k', y⟩ := p
    by_cases hk' : k' = k
    · subst hk'
      rw [show setAssoc ((k', y) :: rest) k' x = (k', x) :: rest from by
        simp [setAssoc], List.find?_cons, List.find?_cons]
      by_cases hk : k2 = k'
      · subst hk
        simp
      · simp [strBeqFalse (fun h : k' = k2 => hk h.symm), hk]
    · rw [show setAssoc ((k', y) :: rest) k x = (k', y) :: setAssoc rest k x from by
        simp [setAssoc, strBeqFalse hk'], List.find?_cons, List.find?_cons, ih]
      by_cases hk2 : k2 = k
      · subst hk2
        simp [strBeqFalse hk']
      · simp [hk2]

theorem objHasOwn_setAssoc (rfs : List (String × JsVal)) (ss : List (Sym × JsVal))
    (k k2 : String) (w : JsVal) :
    objHasOwn (.obj (setAssoc rfs k w) ss) k2
      = (k2 == k || objHasOwn (.obj rfs ss) k2) := by
  unfold objHasOwn
  rw [getField_obj, getField_obj, find?_setAssoc]
  by_cases h : k2 = k
  · subst h
    simp
  · simp [h, strBeqFalse h]

theorem recordFields_pass (fields : List (String × Rt))
    (fs : List (String × JsVal)) (ss : List (Sym × JsVal)) (topV : JsVal)
    (rfs : List (String × JsVal)) (m : Mode)
    (hpass : ∀ p ∈ fields, ∃ w, run p.2 (getFieldD (.obj fs ss) p.1) .internal
      = .ok w ∧ isFail w = false) :
    ∃ rfs2,
      (∀ k2, objHasOwn (.obj rfs2 []) k2
        = (objHasOwn (.obj rfs []) k2 || (decide (k2 ∈ fields.map Prod.fst) && !(k2 == "__proto__")))) ∧
      runRecordFields fields (.obj fs ss) topV (.obj rfs []) m
        = (if ((objKeys (.obj fs ss)).filter (fun k => !objHasOwn (.obj rfs2 []) k)).isEmpty
           then .ok (.obj rfs2 [])
           else createFail m ("invalid keys in record " ++ debugValue
             (.arr ((((objKeys (.obj fs ss)).filter (fun k => !objHasOwn (.obj rfs2 []) k)).map JsVal.str)))) topV) := by
  induction fields generalizing rfs with
  | nil =>
    refine ⟨rfs, by simp, ?_⟩
    rw [runRecordFields]
  | cons p rest ih =>
    obtain ⟨k, frt⟩ := p
    obtain ⟨w, hw, hwf⟩ := hpass (k, frt) (by simp)
    have hrest : ∀ p ∈ rest, ∃ w, run p.2 (getFieldD (.obj fs ss) p.1) .internal
        = .ok w ∧ isFail w = false := fun p hp => hpass p (by simp [hp])
    rw [runRecordFields, hw]
    simp only [hwf, Bool.false_eq_true, if_false]
    by_cases hkp : k = "__proto__"
    · rw [show objSet (.obj rfs []) k w = .obj rfs [] from by simp [objSet, hkp]]
      obtain ⟨rfs2, hiff, heq⟩ := ih rfs hrest
      refine ⟨rfs2, ?_, heq⟩
      intro k2
      rw [hiff k2]
      by_cases hk2 : k2 = k
      · subst hk2
        simp [hkp]
      · simp [List.mem_cons, strBeqFalse hk2, hk2]
    · rw [show objSet (.obj rfs []) k w = .obj (setAssoc rfs k w) [] from by
        simp [objSet, strBeqFalse hkp]]
      obtain ⟨rfs2, hiff, heq⟩ := ih (setAssoc rfs k w) hrest
      refine ⟨rfs2, ?_, heq⟩
      intro k2
      rw [hiff k2, objHasOwn_setAssoc]
      by_cases hk2 : k2 = k
      · subst hk2
        simp [strBeqFalse hkp]
      · simp [List.mem_cons, strBeqFalse hk2, hk2]

/-- Counterexample for C3: `record({a: string()})` validating
`{a: 1, b: 2}` (which has the undeclared key `b`) fails with the reason
`expected a string` from the declared field `a` — a reason that does
not mention the excess key `b`, because declared fields are validated
before the excess-key check. -/
theorem claim_C3_counterexample :
    run (.recordRt [("a", .stringRt none none false none)])
        (.obj [("a", .num (.int 1)), ("b", .num (.int 2))] []) .internal
      = .ok (mkFail "expected a string" [.str "a"]) ∧
    ¬ ('b' ∈ "expected a string".data) := by
  constructor
  · simp [run, runRecordFields, getFieldD, getField, List.find?, createFail,
      propagateFail_mkFail_internal, emptyObj,
      show isFail (JsVal.obj [("a", JsVal.num (JsNum.int 1)),
        ("b", JsVal.num (JsNum.int 2))] []) = false from rfl]
  · decide

/-- Claim C3 (amended): for a record runtype on a non-failure object
input whose declared fields all validate successfully in internal mode:
(1) if every own enumerable key of the input is a declared field other
than `__proto__`, validation succeeds with a non-failure result;
(2) if some own enumerable key `k0` is not declared, validation fails
via `createFail` with the reason `invalid keys in record` listing the
unknown keys, `k0` among them;
(3) concretely, `record({a: string()})` validating `{a: "x", b: 1}`
fails with a reason mentioning `b`.  (The original claim is wrong only
in that a failing declared field is reported before the excess-key
check, so the reason need not mention the excess key.) -/
theorem claim_C3_amended :
    (∀ (fields : List (String × Rt)) (fs : List (String × JsVal))
        (ss : List (Sym × JsVal)) (m : Mode),
      isFail (.obj fs ss) = false →
      (∀ p ∈ fields, ∃ w, run p.2 (getFieldD (.obj fs ss) p.1) .internal
        = .ok w ∧ isFail w = false) →
      (∀ k ∈ objKeys (.obj fs ss), k ∈ fields.map Prod.fst ∧ k ≠ "__proto__") →
      ∃ res, run (.recordRt fields) (.obj fs ss) m = .ok res ∧ isFail res = false) ∧
    (∀ (fields : List (String × Rt)) (fs : List (String × JsVal))
        (ss : List (Sym × JsVal)) (m : Mode) (k0 : String),
      isFail (.obj fs ss) = false →
      (∀ p ∈ fields, ∃ w, run p.2 (getFieldD (.obj fs ss) p.1) .internal
        = .ok w ∧ isFail w = false) →
      k0 ∈ objKeys (.obj fs ss) → ¬ (k0 ∈ fields.map Prod.fst) →
      ∃ uk : List String, run (.recordRt fields) (.obj fs ss) m
          = createFail m ("invalid keys in record " ++
              debugValue (.arr (uk.map JsVal.str))) (.obj fs ss) ∧ k0 ∈ uk) ∧
    (run (.recordRt [("a", .stringRt none none false none)])
        (.obj [("a", .str "x"), ("b", .num (.int 1))] []) .internal
      = .ok (mkFail "invalid keys in record [\"b\"]" []) ∧
      'b' ∈ "invalid keys in record [\"b\"]".data) := by
  refine ⟨?_, ?_, ?_, by decide⟩
  · intro fields fs ss m hF hpass hcover
    obtain ⟨rfs2, hiff, heq⟩ := recordFields_pass fields fs ss (.obj fs ss) [] m hpass
    have hemp : ((objKeys (.obj fs ss)).filter
        (fun k => !objHasOwn (.obj rfs2 []) k)) = [] := by
      rw [List.filter_eq_nil_iff]
      intro k hk
      obtain ⟨hmem, hproto⟩ := hcover k hk
      have hown : objHasOwn (.obj rfs2 []) k = true := by
        rw [hiff k]
        simp [objHasOwn, getField_obj, hmem, strBeqFalse hproto]
      simp [hown]
    refine ⟨.obj rfs2 [], ?_, by simp [isFail]⟩
    rw [run.eq_def]
    simp only [hF, Bool.false_eq_true, if_false]
    rw [show emptyObj = JsVal.obj [] [] from rfl, heq, hemp]
    simp
  · intro fields fs ss m k0 hF hpass hk0 hk0n
    obtain ⟨rfs2, hiff, heq⟩ := recordFields_pass fields fs ss (.obj fs ss) [] m hpass
    have hk0own : objHasOwn (.obj rfs2 []) k0 = false := by
      rw [hiff k0]
      simp [objHasOwn, getField_obj, hk0n]
    have hkmem : k0 ∈ (objKeys (.obj fs ss)).filter
        (fun k => !objHasOwn (.obj rfs2 []) k) := by
      rw [List.mem_filter]
      exact ⟨hk0, by simp [hk0own]⟩
    have hne : ((objKeys (.obj fs ss)).filter
        (fun k => !objHasOwn (.obj rfs2 []) k)).isEmpty = false := by
      rcases hl : (objKeys (.obj fs ss)).filter
          (fun k => !objHasOwn (.obj rfs2 []) k) with _ | ⟨a, l⟩
      · rw [hl] at hkmem
        simp at hkmem
      · simp
    refine ⟨(objKeys (.obj fs ss)).filter (fun k => !objHasOwn (.obj rfs2 []) k),
      ?_, hkmem⟩
    rw [run.eq_def]
    simp only [hF, Bool.false_eq_true, if_false]
    rw [show emptyObj = JsVal.obj [] [] from rfl, heq, hne]
    simp
  · have h1 : jsonStringify (JsVal.arr [JsVal.str "b"]) = "[\"b\"]" := by
      simp [jsonStringify, jsonStringifyElems, escapeJson, escapeJsonChar,
        String.intercalate]
      decide
    have hdv : debugValue (JsVal.arr [JsVal.str "b"]) = "[\"b\"]" := by
      simp [debugValue, h1]
      intro h
      rw [show ("[\"b\"]" : String).length = 5 from rfl] at h
      omega
    simp [run, runRecordFields, runStringChecks, getFieldD, getField, List.find?,
      objKeys, objHasOwn, objSet, setAssoc, emptyObj, createFail, List.filter,
      show isFail (JsVal.obj [("a", JsVal.str "x"),
        ("b", JsVal.num (JsNum.int 1))] []) = false from rfl,
      show isFail (JsVal.str "x") = false from rfl, hdv]

/-- Witness for C3 (amended): `record({a: string()})` accepts
`{a: "x"}` and rejects `{a: "x", b: 1}` with the unknown-key reason
listing `b`. -/
theorem claim_C3_witness :
    (∃ res, run (.recordRt [("a", .stringRt none none false none)])
        (.obj [("a", .str "x")] []) .internal = .ok res ∧ isFail res = false) ∧
    (∃ uk : List String, run (.recordRt [("a", .stringRt none none false none)])
        (.obj [("a", .str "x"), ("b", .num (.int 1))] []) .internal
      = createFail .internal ("invalid keys in record " ++
          debugValue (.arr (uk.map JsVal.str)))
          (.obj [("a", .str "x"), ("b", .num (.int 1))] []) ∧ "b" ∈ uk) := by
  constructor
  · refine claim_C3_amended.1 [("a", .stringRt none none false none)]
      [("a", .str "x")] [] .internal rfl ?_ ?_
    · intro p hp
      simp at hp
      subst hp
      refine ⟨.str "x", ?_, by simp [isFail]⟩
      simp [run, runStringChecks, getFieldD, getField, List.find?]
    · intro k hk
      simp [objKeys] at hk
      subst hk
      exact ⟨by simp, by simp⟩
  · refine claim_C3_amended.2.1 [("a", .stringRt none none false none)]
      [("a", .str "x"), ("b", .num (.int 1))] [] .internal "b" rfl ?_ ?_ ?_
    · intro p hp
      simp at hp
      subst hp
      refine ⟨.str "x", ?_, by simp [isFail]⟩
      simp [run, runStringChecks, getFieldD, getField, List.find?]
    · simp [objKeys]
    · simp

end SimpleRuntypes

namespace SimpleRuntypes

theorem objHasOwn_objSet_proto (res : JsVal) (k : String) (x : JsVal) :
    objHasOwn (objSet res k x) "__proto__" = objHasOwn res "__proto__" := by
  cases res with
  | obj fs ss =>
    by_cases hk : k = "__proto__"
    · simp [objSet, hk]
    · rw [show objSet (.obj fs ss) k x = .obj (setAssoc fs k x) ss from by
        simp [objSet, strBeqFalse hk]]
      rw [objHasOwn_setAssoc]
      simp [strBeqFalse (fun h : "__proto__" = k => hk h.symm)]
  | undef => rfl
  | null => rfl
  | bool b => rfl
  | num n => rfl
  | str s => rfl
  | arr xs => rfl

theorem recordFields_proto_fail (fields : List (String × Rt))
    (fs : List (String × JsVal)) (ss : List (Sym × JsVal)) (topV : JsVal)
    (res : JsVal) (w : JsVal)
    (hres : objHasOwn res "__proto__" = false)
    (hkey : "__proto__" ∈ objKeys (.obj fs ss))
    (hrun : runRecordFields fields (.obj fs ss) topV res .internal = .ok w) :
    isFail w = true := by
  induction fields generalizing res with
  | nil =>
    rw [runRecordFields] at hrun
    have hmem : "__proto__" ∈ (objKeys (.obj fs ss)).filter
        (fun k => !objHasOwn res k) := by
      rw [List.mem_filter]
      exact ⟨hkey, by simp [hres]⟩
    rcases hl : (objKeys (.obj fs ss)).filter (fun k => !objHasOwn res k)
        with _ | ⟨a, l⟩
    · rw [hl] at hmem
      simp at hmem
    · rw [hl] at hrun
      simp [createFail] at hrun
      rw [← hrun]
      simp
  | cons p rest ih =>
    obtain ⟨k, frt⟩ := p
    rw [runRecordFields] at hrun
    rcases hr : run frt (getFieldD (.obj fs ss) k) .internal with e | value
    · simp only [hr] at hrun
      exact absurd hrun (by simp)
    · simp only [hr] at hrun
      by_cases hf : isFail value = true
      · simp only [hf, if_true] at hrun
        obtain ⟨g, hg, hgf⟩ := propagateFail_internal_isFail value topV (some (.str k))
        rw [hg] at hrun
        simp only [Except.ok.injEq] at hrun
        rw [← hrun, hgf]
        exact hf
      · have hf' : isFail value = false := by simpa using hf
        simp only [hf', Bool.false_eq_true, if_false] at hrun
        exact ih (objSet res k value)
          (by rw [objHasOwn_objSet_proto]; exact hres) hrun

theorem dictEntries_proto_fail (krt vrt : Rt) (entries : List (String × JsVal))
    (topV res : JsVal) (pure : Bool) (w : JsVal)
    (hkey : "__proto__" ∈ entries.map Prod.fst)
    (hrun : runDictEntries krt vrt entries topV res pure .internal = .ok w) :
    isFail w = true := by
  induction entries generalizing res with
  | nil => simp at hkey
  | cons p rest ih =>
    obtain ⟨k, val⟩ := p
    rw [runDictEntries] at hrun
    by_cases hkp : k = "__proto__"
    · rw [if_pos (by simp [hkp])] at hrun
      simp [createFail] at hrun
      rw [← hrun]
      simp
    · rw [if_neg (by simp [hkp])] at hrun
      have hmem : "__proto__" ∈ rest.map Prod.fst := by
        rw [List.map_cons] at hkey
        rcases List.mem_cons.mp hkey with h | h
        · exact absurd h.symm hkp
        · exact h
      rcases hk : run krt (.str k) .internal with e | keyOrFail
      · simp only [hk] at hrun
        exact absurd hrun (by simp)
      · simp only [hk] at hrun
        by_cases hkf : isFail keyOrFail = true
        · simp only [hkf, if_true] at hrun
          obtain ⟨g, hg, hgf⟩ := propagateFail_internal_isFail keyOrFail topV none
          rw [hg] at hrun
          simp only [Except.ok.injEq] at hrun
          rw [← hrun, hgf]
          exact hkf
        · have hkf' : isFail keyOrFail = false := by simpa using hkf
          simp only [hkf', Bool.false_eq_true, if_false] at hrun
          rcases hv : run vrt val .internal with e | valueOrFail
          · simp only [hv] at hrun
            exact absurd hrun (by simp)
          · simp only [hv] at hrun
            by_cases hvf : isFail valueOrFail = true
            · simp only [hvf, if_true] at hrun
              obtain ⟨g, hg, hgf⟩ := propagateFail_internal_isFail valueOrFail topV none
              rw [hg] at hrun
              simp only [Except.ok.injEq] at hrun
              rw [← hrun, hgf]
              exact hvf
            · have hvf' : isFail valueOrFail = false := by simpa using hvf
              simp only [hvf', Bool.false_eq_true, if_false] at hrun
              exact ih _ hmem hrun

/-- Counterexample for C4: `dictionary(string(), string())` validating
`{a: 1, __proto__: "x"}` fails with the first entry's value failure
`expected a string`, not with the `__proto__` rejection — the
prototype-key check happens inside the per-key loop, at that key's
position, not before field-by-field processing. -/
theorem claim_C4_counterexample :
    run (.dictionaryRt (.stringRt none none false none) (.stringRt none none false none))
        (.obj [("a", .num (.int 1)), ("__proto__", .str "x")] []) .internal
      = .ok (mkFail "expected a string" []) ∧
    (∀ s : String, ¬ ("expected a string" = "invalid key in dictionary: " ++ s)) := by
  constructor
  · simp [run, runDictEntries, isPureRt, runStringChecks, createFail,
      propagateFail_mkFail_internal,
      show isFail (JsVal.obj [("a", JsVal.num (JsNum.int 1)),
        ("__proto__", JsVal.str "x")] []) = false from rfl,
      show isFail (JsVal.str "a") = false from rfl]
  · intro s h
    have hlen := congrArg String.length h
    rw [String.length_append] at hlen
    rw [show ("expected a string" : String).length = 17 from rfl,
      show ("invalid key in dictionary: " : String).length = 27 from rfl] at hlen
    omega

/-- Claim C4 (amended): an input object with an own key literally named
`__proto__` is never accepted by a record or a dictionary runtype —
internal-mode validation can only return a failure marker — and this is
independent of whether the key is declared or its value passes: record
with `__proto__` declared and passing still fails with the unknown-key
reason (the `res[key] = value` assignment triggers the inherited
`__proto__` setter and creates no own property, so the key is counted
as unknown), and dictionary rejects the entry with the invalid-key
reason when the loop reaches it.  (The original claim's "before
field-by-field processing" is wrong: both checks run inside or after
the field loop.) -/
theorem claim_C4_amended :
    (∀ (fields : List (String × Rt)) (fs : List (String × JsVal))
        (ss : List (Sym × JsVal)) (w : JsVal),
      "__proto__" ∈ objKeys (.obj fs ss) →
      run (.recordRt fields) (.obj fs ss) .internal = .ok w →
      isFail w = true) ∧
    (∀ (krt vrt : Rt) (fs : List (String × JsVal)) (ss : List (Sym × JsVal))
        (w : JsVal),
      "__proto__" ∈ objKeys (.obj fs ss) →
      run (.dictionaryRt krt vrt) (.obj fs ss) .internal = .ok w →
      isFail w = true) ∧
    (run (.recordRt [("__proto__", .stringRt none none false none)])
        (.obj [("__proto__", .str "x")] []) .internal
      = .ok (mkFail ("invalid keys in record " ++
          debugValue (.arr [.str "__proto__"])) [])) ∧
    (run (.dictionaryRt (.stringRt none none false none) (.stringRt none none false none))
        (.obj [("__proto__", .str "x")] []) .internal
      = .ok (mkFail ("invalid key in dictionary: " ++
          debugValue (.str "__proto__")) [])) := by
  refine ⟨?_, ?_, ?_, ?_⟩
  · intro fields fs ss w hkey hrun
    rw [run.eq_def] at hrun
    by_cases hF : isFail (.obj fs ss) = true
    · simp only [hF, if_true] at hrun
      obtain ⟨g, hg, hgf⟩ := propagateFail_internal_isFail (.obj fs ss) (.obj fs ss) none
      rw [hg] at hrun
      simp only [Except.ok.injEq] at hrun
      rw [← hrun, hgf]
      exact hF
    · have hF' : isFail (.obj fs ss) = false := by simpa using hF
      simp only [hF', Bool.false_eq_true, if_false] at hrun
      exact recordFields_proto_fail fields fs ss (.obj fs ss) emptyObj w rfl hkey hrun
  · intro krt vrt fs ss w hkey hrun
    rw [run.eq_def] at hrun
    by_cases hF : isFail (.obj fs ss) = true
    · simp only [hF, if_true] at hrun
      obtain ⟨g, hg, hgf⟩ := propagateFail_internal_isFail (.obj fs ss) (.obj fs ss) none
      rw [hg] at hrun
      simp only [Except.ok.injEq] at hrun
      rw [← hrun, hgf]
      exact hF
    · have hF' : isFail (.obj fs ss) = false := by simpa using hF
      simp only [hF', Bool.false_eq_true, if_false] at hrun
      by_cases hss : (!ss.isEmpty) = true
      · simp only [hss, if_true] at hrun
        simp [createFail] at hrun
        rw [← hrun]
        simp
      · have hss' : (!ss.isEmpty) = false := by simpa using hss
        simp only [hss', Bool.false_eq_true, if_false] at hrun
        exact dictEntries_proto_fail krt vrt fs (.obj fs ss) _ _ w
          (by simpa [objKeys] using hkey) hrun
  · simp [run, runRecordFields, runStringChecks, getFieldD, getField, List.find?,
      objKeys, objHasOwn, objSet, setAssoc, emptyObj, createFail, List.filter,
      show isFail (JsVal.obj [("__proto__", JsVal.str "x")] []) = false from rfl,
      show isFail (JsVal.str "x") = false from rfl]
  · simp [run, runDictEntries, isPureRt, createFail,
      show isFail (JsVal.obj [("__proto__", JsVal.str "x")] []) = false from rfl]

/-- Witness for C4: the record clause applied to `record({})` on
`{__proto__: 1}` and the dictionary clause applied to
`dictionary(string(), string())` on `{__proto__: "x"}`, each input
carrying the own key `__proto__`, yield failure markers. -/
theorem claim_C4_witness :
    isFail (mkFail ("invalid keys in record " ++
      debugValue (.arr [.str "__proto__"])) []) = true ∧
    isFail (mkFail ("invalid key in dictionary: " ++
      debugValue (.str "__proto__")) []) = true := by
  constructor
  · exact claim_C4_amended.1 [("__proto__", .stringRt none none false none)]
      [("__proto__", .str "x")] [] _ (by simp [objKeys]) claim_C4_amended.2.2.1
  · exact claim_C4_amended.2.1 (.stringRt none none false none)
      (.stringRt none none false none) [("__proto__", .str "x")] [] _
      (by simp [objKeys]) claim_C4_amended.2.2.2

end SimpleRuntypes

namespace SimpleRuntypes

theorem lookupField_cons (k' : String) (r : Rt) (rest : List (String × Rt))
    (k : String) :
    lookupField ((k', r) :: rest) k
      = if k' = k then some r else lookupField rest k := by
  unfold lookupField
  rw [List.find?_cons]
  by_cases h : k' = k
  · simp [h]
  · simp [h, strBeqFalse h]

theorem lookupField_append (xs ys : List (String × Rt)) (k : String) :
    lookupField (xs ++ ys) k
      = match lookupField xs k with
        | some r => some r
        | none => lookupField ys k := by
  induction xs with
  | nil => simp [lookupField]
  | cons p rest ih =>
    obtain ⟨k', r⟩ := p
    rw [List.cons_append, lookupField_cons, lookupField_cons]
    by_cases h : k' = k
    · simp [h]
    · simp [h, ih]

theorem lookupField_mergeFieldsA (fa fb : List (String × Rt)) (k : String) :
    lookupField (mergeFieldsA fa fb) k
      = match lookupField fa k with
        | none => none
        | some ra =>
          match lookupField fb k with
          | some rb => some (intersection2 ra rb)
          | none => some ra := by
  induction fa with
  | nil => simp [mergeFieldsA, lookupField]
  | cons p rest ih =>
    obtain ⟨k', ra⟩ := p
    rw [mergeFieldsA]
    rcases hb : lookupField fb k' with _ | rb
    · rw [lookupField_cons, lookupField_cons]
      by_cases h : k' = k
      · subst h
        rw [hb]
        simp
      · simp [h, ih]
    · rw [lookupField_cons, lookupField_cons]
      by_cases h : k' = k
      · subst h
        rw [hb]
        simp
      · simp [h, ih]

theorem lookupField_fieldsOnlyB (fa fb : List (String × Rt)) (k : String) :
    lookupField (fieldsOnlyB fa fb) k
      = match lookupField fa k with
        | some _ => none
        | none => lookupField fb k := by
  induction fb with
  | nil =>
    rcases lookupField fa k <;> simp [fieldsOnlyB, lookupField]
  | cons p rest ih =>
    obtain ⟨k', rb⟩ := p
    by_cases hfa : (lookupField fa k').isNone = true
    · rw [show fieldsOnlyB fa ((k', rb) :: rest) = (k', rb) :: fieldsOnlyB fa rest
        from by simp [fieldsOnlyB, List.filter_cons, hfa]]
      rw [lookupField_cons, lookupField_cons]
      by_cases h : k' = k
      · subst h
        rw [show lookupField fa k' = none from by
          rcases hx : lookupField fa k' with _ | r
          · rfl
          · rw [hx] at hfa
            simp at hfa]
        simp
      · simp [h, ih]
    · rw [show fieldsOnlyB fa ((k', rb) :: rest) = fieldsOnlyB fa rest
        from by simp [fieldsOnlyB, List.filter_cons, hfa]]
      rw [ih, lookupField_cons]
      by_cases h : k' = k
      · subst h
        rcases hx : lookupField fa k' with _ | r
        · rw [hx] at hfa
          simp at hfa
        · rfl
      · simp [h]

theorem lookupField_isSome_mem (l : List (String × Rt)) (k : String) :
    (lookupField l k).isSome = true ↔ k ∈ l.map Prod.fst := by
  induction l with
  | nil => simp [lookupField]
  | cons p rest ih =>
    obtain ⟨k', r⟩ := p
    rw [lookupField_cons]
    by_cases h : k' = k
    · simp [h]
    · simp only [List.map_cons, List.mem_cons]
      rw [if_neg h]
      constructor
      · intro hs
        exact Or.inr (ih.mp hs)
      · intro hm
        rcases hm with hm | hm
        · exact absurd hm.symm h
        · exact ih.mpr hm

theorem createFail_ok_isFail {m : Mode} {msg : String} {v w : JsVal}
    (h : createFail m msg v = .ok w) : isFail w = true := by
  cases m with
  | external => simp [createFail] at h
  | internal =>
    simp [createFail] at h
    rw [← h]
    simp

theorem propagateFail_ok_isFail {m : Mode} {f tv w : JsVal} {key? : Option JsVal}
    (h : propagateFail m f tv key? = .ok w) : isFail w = isFail f := by
  cases m with
  | external => simp [propagateFail] at h
  | internal =>
    simp [propagateFail] at h
    rw [← h, isFail_objSet]

theorem objHasOwn_objSet_mem {res : JsVal} {k : String} {x : JsVal} {k2 : String}
    (h : objHasOwn (objSet res k x) k2 = true) :
    objHasOwn res k2 = true ∨ k2 = k := by
  cases res with
  | obj fs ss =>
    by_cases hk : k = "__proto__"
    · rw [show objSet (.obj fs ss) k x = .obj fs ss from by simp [objSet, hk]] at h
      exact Or.inl h
    · rw [show objSet (.obj fs ss) k x = .obj (setAssoc fs k x) ss from by
        simp [objSet, strBeqFalse hk], objHasOwn_setAssoc] at h
      rcases Bool.or_eq_true_iff.mp h with h2 | h2
      · exact Or.inr (eq_of_beq h2)
      · exact Or.inl h2
  | undef => exact Or.inl h
  | null => exact Or.inl h
  | bool b => exact Or.inl h
  | num n => exact Or.inl h
  | str s => exact Or.inl h
  | arr xs => exact Or.inl h

theorem recordFields_accept_keys (fields : List (String × Rt)) (o topV res : JsVal)
    (m : Mode) (w : JsVal)
    (hrun : runRecordFields fields o topV res m = .ok w)
    (hok : isFail w = false) :
    ∀ k ∈ objKeys o, objHasOwn res k = true ∨ k ∈ fields.map Prod.fst := by
  induction fields generalizing res with
  | nil =>
    intro k hk
    rw [runRecordFields] at hrun
    by_cases he : ((objKeys o).filter (fun k2 => !objHasOwn res k2)).isEmpty = true
    · rw [if_pos he] at hrun
      left
      have hnil : (objKeys o).filter (fun k2 => !objHasOwn res k2) = [] :=
        List.isEmpty_iff.mp he
      by_cases hkk : objHasOwn res k = true
      · exact hkk
      · have : k ∈ (objKeys o).filter (fun k2 => !objHasOwn res k2) := by
          rw [List.mem_filter]
          exact ⟨hk, by simp [Bool.eq_false_iff.mpr hkk]⟩
        rw [hnil] at this
        simp at this
    · rw [if_neg he] at hrun
      exact absurd (createFail_ok_isFail hrun) (by simp [hok])
  | cons p rest ih =>
    intro k hk
    obtain ⟨k', frt⟩ := p
    rw [runRecordFields] at hrun
    rcases hr : run frt (getFieldD o k') .internal with e | value
    · simp only [hr] at hrun
      exact absurd hrun (by simp)
    · simp only [hr] at hrun
      by_cases hf : isFail value = true
      · simp only [hf, if_true] at hrun
        have := propagateFail_ok_isFail hrun
        rw [hok, hf] at this
        simp at this
      · have hf' : isFail value = false := by simpa using hf
        simp only [hf', Bool.false_eq_true, if_false] at hrun
        rcases ih (objSet res k' value) hrun k hk with h | h
        · rcases objHasOwn_objSet_mem h with h2 | h2
          · exact Or.inl h2
          · exact Or.inr (by simp [h2])
        · exact Or.inr (by simp [h])

/-- Claim C7: the intersection of two record runtypes is itself one
record runtype over the union of the field sets: (1) `intersection2`
on two records produces a single record whose fields are the merged
map; (2) looking a key up in the merged map yields the recursive
intersection when both operands declare it, the sole declaring
operand's runtype when only one does, and nothing when neither does
(so the merged key set is the union); (3) excess-key rejection applies
against that union: an object accepted by the intersection has all its
own enumerable keys among the union of both field sets; (4) the
intersection of the disjoint-field records `record({a: string()})` and
`record({b: integer()})` accepts `{a: "x", b: 5}`. -/
theorem claim_C7 :
    (∀ fa fb : List (String × Rt),
      intersection2 (.recordRt fa) (.recordRt fb)
        = .recordRt (mergeFieldsA fa fb ++ fieldsOnlyB fa fb)) ∧
    (∀ (fa fb : List (String × Rt)) (k : String),
      lookupField (mergeFieldsA fa fb ++ fieldsOnlyB fa fb) k
        = match lookupField fa k, lookupField fb k with
          | some ra, some rb => some (intersection2 ra rb)
          | some ra, none => some ra
          | none, some rb => some rb
          | none, none => none) ∧
    (∀ (fa fb : List (String × Rt)) (fs : List (String × JsVal))
        (ss : List (Sym × JsVal)) (w : JsVal),
      run (intersection2 (.recordRt fa) (.recordRt fb)) (.obj fs ss) .internal
        = .ok w →
      isFail w = false →
      ∀ k ∈ objKeys (.obj fs ss), k ∈ fa.map Prod.fst ∨ k ∈ fb.map Prod.fst) ∧
    (run (intersection2 (.recordRt [("a", .stringRt none none false none)])
          (.recordRt [("b", .integerRt none none)]))
        (.obj [("a", .str "x"), ("b", .num (.int 5))] []) .internal
      = .ok (.obj [("a", .str "x"), ("b", .num (.int 5))] [])) := by
  refine ⟨?_, ?_, ?_, ?_⟩
  · intro fa fb
    simp [intersection2]
  · intro fa fb k
    rw [lookupField_append, lookupField_mergeFieldsA, lookupField_fieldsOnlyB]
    rcases lookupField fa k with _ | ra <;> rcases lookupField fb k with _ | rb <;> rfl
  · intro fa fb fs ss w hrun hok k hk
    rw [show intersection2 (.recordRt fa) (.recordRt fb)
      = .recordRt (mergeFieldsA fa fb ++ fieldsOnlyB fa fb) from by
        simp [intersection2]] at hrun
    rw [run.eq_def] at hrun
    by_cases hF : isFail (.obj fs ss) = true
    · simp only [hF, if_true] at hrun
      have := propagateFail_ok_isFail hrun
      rw [hok, hF] at this
      simp at this
    · have hF' : isFail (.obj fs ss) = false := by simpa using hF
      simp only [hF', Bool.false_eq_true, if_false] at hrun
      rcases recordFields_accept_keys _ _ _ _ _ _ hrun hok k hk with h | h
      · simp [objHasOwn, getField, emptyObj] at h
      · have hs := (lookupField_isSome_mem _ k).mpr h
        rw [lookupField_append, lookupField_mergeFieldsA,
          lookupField_fieldsOnlyB] at hs
        rcases ha : lookupField fa k with _ | ra
        · rcases hb : lookupField fb k with _ | rb
          · rw [ha, hb] at hs
            simp at hs
          · right
            rw [← lookupField_isSome_mem]
            simp [hb]
        · left
          rw [← lookupField_isSome_mem]
          simp [ha]
  · rw [show intersection2 (.recordRt [("a", .stringRt none none false none)])
        (.recordRt [("b", .integerRt none none)])
      = .recordRt [("a", .stringRt none none false none), ("b", .integerRt none none)]
      from by simp [intersection2, mergeFieldsA, fieldsOnlyB, lookupField,
        List.find?, List.filter, fieldsOnlyB]]
    simp [run, runRecordFields, runStringChecks, getFieldD, getField, List.find?,
      objKeys, objHasOwn, objSet, setAssoc, emptyObj, List.filter, isSafeInteger,
      show isFail (JsVal.obj [("a", JsVal.str "x"),
        ("b", JsVal.num (JsNum.int 5))] []) = false from rfl,
      show isFail (JsVal.str "x") = false from rfl,
      show isFail (JsVal.num (JsNum.int 5)) = false from rfl]

/-- Witness for C7: the excess-key clause applied to the concrete
disjoint-field intersection accepting `{a: "x", b: 5}` places the key
`a` in the union of the two field sets. -/
theorem claim_C7_witness :
    "a" ∈ ([("a", Rt.stringRt none none false none)].map Prod.fst) ∨
    "a" ∈ ([("b", Rt.integerRt none none)].map Prod.fst) := by
  refine claim_C7.2.2.1 [("a", .stringRt none none false none)]
    [("b", .integerRt none none)] [("a", .str "x"), ("b", .num (.int 5))] []
    (.obj [("a", .str "x"), ("b", .num (.int 5))] [])
    claim_C7.2.2.2 rfl "a" (by simp [objKeys])

end SimpleRuntypes

namespace SimpleRuntypes

theorem dropWhile_idem2 {α : Type} (p : α → Bool) (l : List α) :
    List.dropWhile p (List.dropWhile p l) = List.dropWhile p l := by
  induction l with
  | nil => simp
  | cons a l ih =>
    rw [List.dropWhile_cons]
    by_cases h : p a = true
    · rw [if_pos h]
      exact ih
    · rw [if_neg h, List.dropWhile_cons, if_neg h]

theorem dropWhile_eq_self_of_prefix {α : Type} (p : α → Bool) {l l2 : List α}
    (hl : List.dropWhile p l = l) (hp : l2 <+: l) :
    List.dropWhile p l2 = l2 := by
  cases l2 with
  | nil => simp
  | cons a t =>
    obtain ⟨u, hu⟩ := hp
    rw [← hu, List.cons_append, List.dropWhile_cons] at hl
    by_cases h : p a = true
    · rw [if_pos h] at hl
      have hlen := congrArg List.length hl
      have hle := (List.dropWhile_suffix (l := t ++ u) p).sublist.length_le
      rw [List.length_cons] at hlen
      omega
    · rw [List.dropWhile_cons, if_neg h]

theorem jsTrimChars_idem (l : List Char) :
    jsTrimChars (jsTrimChars l) = jsTrimChars l := by
  unfold jsTrimChars
  have hdl1 : List.dropWhile isJsSpace (List.dropWhile isJsSpace l)
      = List.dropWhile isJsSpace l := dropWhile_idem2 isJsSpace l
  have hpre : (List.dropWhile isJsSpace (List.dropWhile isJsSpace l).reverse).reverse
      <+: List.dropWhile isJsSpace l := by
    have hsuf := List.dropWhile_suffix (l := (List.dropWhile isJsSpace l).reverse)
      (p := isJsSpace)
    have := List.reverse_prefix.mpr hsuf
    simpa using this
  have hdt := dropWhile_eq_self_of_prefix isJsSpace hdl1 hpre
  rw [hdt, List.reverse_reverse, dropWhile_idem2]

theorem jsTrim_idem (s : String) : jsTrim (jsTrim s) = jsTrim s := by
  unfold jsTrim
  rw [show (String.mk (jsTrimChars s.data)).data = jsTrimChars s.data from rfl,
    jsTrimChars_idem]

theorem jsTrimChars_length_le (l : List Char) :
    (jsTrimChars l).length ≤ l.length := by
  unfold jsTrimChars
  have h1 := (List.dropWhile_suffix (l := l) isJsSpace).sublist.length_le
  have h2 := (List.dropWhile_suffix (l := (List.dropWhile isJsSpace l).reverse)
    isJsSpace).sublist.length_le
  simp only [List.length_reverse] at h1 h2 ⊢
  omega

theorem jsTrim_length_le (s : String) : (jsTrim s).length ≤ s.length := by
  rw [show (jsTrim s).length = (jsTrimChars s.data).length from rfl,
    show s.length = s.data.length from rfl]
  exact jsTrimChars_length_le s.data

/-- The string-validator branch of `run` on a string input with no
declared minimum length (src/src/index.ts lines 415-439). -/
theorem run_stringRt_str_none (maxLen : Option Nat) (trim : Bool)
    (matchP : Option (String → Bool)) (s : String) (m : Mode) :
    run (.stringRt none maxLen trim matchP) (.str s) m
      = runStringChecks s maxLen trim matchP (.str s) m := by
  rw [run.eq_def]

/-- The string-validator branch of `run` on a string input with a
declared minimum length: the minLength check runs first. -/
theorem run_stringRt_str_some (mn : Nat) (maxLen : Option Nat) (trim : Bool)
    (matchP : Option (String → Bool)) (s : String) (m : Mode) :
    run (.stringRt (some mn) maxLen trim matchP) (.str s) m
      = (if s.length < mn then
           createFail m ("expected the string length to be at least " ++ toString mn) (.str s)
         else runStringChecks s maxLen trim matchP (.str s) m) := by
  rw [run.eq_def]

/-- The string validator rejects every non-string input with the
`expected a string` marker in internal mode. -/
theorem run_stringRt_notstr (minLen maxLen : Option Nat) (trim : Bool)
    (matchP : Option (String → Bool)) (v : JsVal)
    (hv : ∀ s, ¬ v = .str s) :
    run (.stringRt minLen maxLen trim matchP) v .internal
      = .ok (mkFail "expected a string" []) := by
  cases v <;>
    first
      | exact absurd rfl (hv _)
      | (rw [run.eq_def]
         simp [createFail, propagateFail_mkFail_internal])

/-- Counterexample for C9: `stringAsInteger` accepts the string `"5"`
and returns the number `5`, but re-validating that returned number with
the same validator yields a failure marker (the validator only accepts
strings), so validation is not idempotent; likewise
`string({minLength: 2, trim: true})` accepts `" a "` returning `"a"`,
whose re-validation fails the minimum-length check. -/
theorem claim_C9_counterexample :
    run (.stringAsIntegerRt none none) (.str "5") .internal = .ok (.num (.int 5)) ∧
    run (.stringAsIntegerRt none none) (.num (.int 5)) .internal
      = .ok (mkFail "expected a string that contains a safe integer" []) ∧
    isFail (.num (.int 5)) = false ∧
    isFail (mkFail "expected a string that contains a safe integer" []) = true ∧
    run (.stringRt (some 2) none true none) (.str " a ") .internal
      = .ok (.str "a") ∧
    run (.stringRt (some 2) none true none) (.str "a") .internal
      = .ok (mkFail "expected the string length to be at least 2" []) := by
  refine ⟨?_, ?_, rfl, by simp, ?_, ?_⟩
  · rw [run.eq_def]
    simp [show jsParseInt10 "5" = JsNum.int 5 from rfl,
      show isSafeInteger (JsNum.int 5) = true from rfl,
      show jsNumToString (JsNum.int 5) = "5" from rfl,
      show (("5" : String) == "-0") = false from rfl,
      show (("5" : String).data.head? == some '+') = false from rfl]
  · rw [run.eq_def]
    simp [createFail]
  · rw [run_stringRt_str_some]
    simp [runStringChecks, show ((" a " : String).length) = 3 from rfl,
      show jsTrim " a " = "a" from rfl]
  · rw [run_stringRt_str_some]
    simp [createFail, show (("a" : String).length) = 1 from rfl,
      show toString (2 : Nat) = "2" from rfl]

/-- Claim C9 (amended): idempotence holds for the plain string
validators: a `string()` validator with no match predicate that either
does not trim or has no minimum length accepts its own output
unchanged (`V(V(v)) = V(v)` exactly); the trim transformation itself
is idempotent (`trim(trim(s)) = trim(s)`), and `string({trim: true})`
maps `" a "` to `"a"` and then `"a"` to itself.  (The original claim
fails for `stringAsInteger`, which returns numbers but accepts only
strings, and for `trim` combined with `minLength`, where trimming can
shrink a string below the minimum length.) -/
theorem claim_C9_amended :
    (∀ (minLen maxLen : Option Nat) (trim : Bool) (v w : JsVal),
      (trim = false ∨ minLen = none) →
      run (.stringRt minLen maxLen trim none) v .internal = .ok w →
      isFail w = false →
      run (.stringRt minLen maxLen trim none) w .internal = .ok w) ∧
    (∀ s : String, jsTrim (jsTrim s) = jsTrim s) ∧
    (run (.stringRt none none true none) (.str " a ") .internal = .ok (.str "a") ∧
     run (.stringRt none none true none) (.str "a") .internal = .ok (.str "a")) := by
  refine ⟨?_, jsTrim_idem, ?_, ?_⟩
  · intro minLen maxLen trim v w hcase hrun hok
    by_cases hstr : ∃ s, v = .str s
    · obtain ⟨s, rfl⟩ := hstr
      have hred : runStringChecks s maxLen trim none (.str s) .internal = .ok w ∧
          (∀ mn, minLen = some mn → ¬ s.length < mn) := by
        rcases hml : minLen with _ | mn
        · subst hml
          rw [run_stringRt_str_none] at hrun
          exact ⟨hrun, by intro mn h; cases h⟩
        · subst hml
          rw [run_stringRt_str_some] at hrun
          by_cases hmin : s.length < mn
          · rw [if_pos hmin] at hrun
            exact absurd (createFail_ok_isFail hrun) (by simp [hok])
          · rw [if_neg hmin] at hrun
            refine ⟨hrun, ?_⟩
            intro mn2 h2
            injection h2 with h2
            subst h2
            exact hmin
      obtain ⟨hchecks, hmn⟩ := hred
      have hw : w = .str (if trim then jsTrim s else s) ∧
          (∀ mx, maxLen = some mx → ¬ (if trim then jsTrim s else s).length > mx) := by
        rcases hmx : maxLen with _ | mx
        · subst hmx
          rw [runStringChecks] at hchecks
          simp only [Except.ok.injEq] at hchecks
          exact ⟨hchecks.symm, by intro mx h; cases h⟩
        · subst hmx
          rw [runStringChecks] at hchecks
          by_cases hgt : s.length > mx
          · rw [if_pos hgt] at hchecks
            exact absurd (createFail_ok_isFail hchecks) (by simp [hok])
          · rw [if_neg hgt] at hchecks
            simp only [Except.ok.injEq] at hchecks
            refine ⟨hchecks.symm, ?_⟩
            intro mx2 h2
            injection h2 with h2
            subst h2
            by_cases ht : trim = true
            · subst ht
              simp only [if_true]
              have := jsTrim_length_le s
              omega
            · have ht2 : trim = false := by simpa using ht
              subst ht2
              simpa using hgt
      obtain ⟨hweq, hmx⟩ := hw
      subst hweq
      rcases hcase with hc | hc
      · subst hc
        simp only [Bool.false_eq_true, if_false] at hmx ⊢
        rcases hml : minLen with _ | mn
        · subst hml
          rw [run_stringRt_str_none]
          rcases hmx2 : maxLen with _ | mx
          · subst hmx2
            rw [runStringChecks]
            simp
          · subst hmx2
            rw [runStringChecks, if_neg (hmx mx rfl)]
            simp
        · subst hml
          rw [run_stringRt_str_some, if_neg (hmn mn rfl)]
          rcases hmx2 : maxLen with _ | mx
          · subst hmx2
            rw [runStringChecks]
            simp
          · subst hmx2
            rw [runStringChecks, if_neg (hmx mx rfl)]
            simp
      · subst hc
        rw [run_stringRt_str_none]
        have htr : (if trim then jsTrim (if trim then jsTrim s else s)
            else (if trim then jsTrim s else s)) = (if trim then jsTrim s else s) := by
          by_cases ht : trim = true
          · subst ht
            simp [jsTrim_idem]
          · have ht2 : trim = false := by simpa using ht
            subst ht2
            simp
        rcases hmx2 : maxLen with _ | mx
        · subst hmx2
          rw [runStringChecks]
          rw [htr]
        · subst hmx2
          rw [runStringChecks, if_neg (hmx mx rfl)]
          rw [htr]
    · rw [run_stringRt_notstr _ _ _ _ _ (fun s h => hstr ⟨s, h⟩)] at hrun
      simp only [Except.ok.injEq] at hrun
      rw [← hrun] at hok
      simp at hok
  · rw [run_stringRt_str_none]
    simp [runStringChecks, show jsTrim " a " = "a" from rfl]
  · rw [run_stringRt_str_none]
    simp [runStringChecks, show jsTrim "a" = "a" from rfl]

/-- Witness for C9: the idempotence clause applied to
`string({trim: true})` on `" a "`: the returned `"a"` re-validates to
itself. -/
theorem claim_C9_witness :
    run (.stringRt none none true none) (.str "a") .internal = .ok (.str "a") :=
  claim_C9_amended.1 none none true (.str " a ") (.str "a")
    (Or.inr rfl) claim_C9_amended.2.2.1 rfl

end SimpleRuntypes

namespace SimpleRuntypes

theorem failShapeStringChecks (s : String) (maxLen : Option Nat) (trim : Bool)
    (matchP : Option (String → Bool)) (v w : JsVal)
    (h : runStringChecks s maxLen trim matchP v .internal = .ok w)
    (hf : isFail w = true) : FailShaped w := by
  rw [runStringChecks.eq_def] at h
  (repeat' split at h) <;>
    simp [createFail] at h <;>
    first
      | exact ⟨_, _, h.symm⟩
      | (rw [← h] at hf; simp at hf)

theorem failShapeUnionAlts (alts : List Rt) (v w : JsVal)
    (hchild : ∀ r ∈ alts, ∀ w2, run r v .internal = .ok w2 →
      isFail w2 = true → FailShaped w2)
    (h : runUnionAlts alts v .internal = .ok w)
    (hf : isFail w = true) : FailShaped w := by
  induction alts with
  | nil =>
    rw [runUnionAlts] at h
    simp [propagateFail, objSet] at h
    rw [← h] at hf
    simp at hf
  | cons a rest ih =>
    rcases rest with _ | ⟨b, rest2⟩
    · rw [runUnionAlts] at h
      rcases hr : run a v .internal with e | val
      · simp only [hr] at h
        exact absurd h (by simp)
      · simp only [hr] at h
        by_cases hv : isFail val = true
        · simp only [hv, if_true] at h
          obtain ⟨r, p, hs⟩ := hchild a (by simp) val hr hv
          subst hs
          rw [propagateFail_mkFail_internal] at h
          simp only [Except.ok.injEq] at h
          exact ⟨r, _, h.symm⟩
        · have hv2 : isFail val = false := by simpa using hv
          simp only [hv2, Bool.false_eq_true, if_false] at h
          simp only [Except.ok.injEq] at h
          rw [← h] at hf
          exact absurd hf (by simp [hv2])
    · rw [runUnionAlts] at h
      rcases hr : run a v .internal with e | val
      · simp only [hr] at h
        exact absurd h (by simp)
      · simp only [hr] at h
        by_cases hv : isFail val = true
        · simp only [hv, if_true] at h
          exact ih (fun r hrm => hchild r (by simp [hrm])) h
        · have hv2 : isFail val = false := by simpa using hv
          simp only [hv2, Bool.false_eq_true, if_false] at h
          simp only [Except.ok.injEq] at h
          rw [← h] at hf
          exact absurd hf (by simp [hv2])

theorem failShapeRecordFields (fields : List (String × Rt)) (o topV : JsVal)
    (res w : JsVal)
    (hres : isFail res = false)
    (hchild : ∀ p ∈ fields, ∀ w2, run p.2 (getFieldD o p.1) .internal = .ok w2 →
      isFail w2 = true → FailShaped w2)
    (h : runRecordFields fields o topV res .internal = .ok w)
    (hf : isFail w = true) : FailShaped w := by
  induction fields generalizing res with
  | nil =>
    rw [runRecordFields] at h
    by_cases he : ((objKeys o).filter (fun k => !objHasOwn res k)).isEmpty = true
    · rw [if_pos he] at h
      simp only [Except.ok.injEq] at h
      rw [← h] at hf
      exact absurd hf (by simp [hres])
    · rw [if_neg he] at h
      simp [createFail] at h
      exact ⟨_, _, h.symm⟩
  | cons p rest ih =>
    obtain ⟨k, frt⟩ := p
    rw [runRecordFields] at h
    rcases hr : run frt (getFieldD o k) .internal with e | value
    · simp only [hr] at h
      exact absurd h (by simp)
    · simp only [hr] at h
      by_cases hv : isFail value = true
      · simp only [hv, if_true] at h
        obtain ⟨r, pth, hs⟩ := hchild (k, frt) (by simp) value hr hv
        subst hs
        rw [propagateFail_mkFail_internal] at h
        simp only [Except.ok.injEq] at h
        exact ⟨r, _, h.symm⟩
      · have hv2 : isFail value = false := by simpa using hv
        simp only [hv2, Bool.false_eq_true, if_false] at h
        exact ih (objSet res k value) (by rw [isFail_objSet]; exact hres)
          (fun p2 hp2 => hchild p2 (by simp [hp2])) h

theorem failShapeArrayElems (item : Rt) (elems : List JsVal) (i : Nat)
    (topV : JsVal) (acc : List JsVal) (w : JsVal)
    (hchild : ∀ x ∈ elems, ∀ w2, run item x .internal = .ok w2 →
      isFail w2 = true → FailShaped w2)
    (h : runArrayElems item elems i topV acc .internal = .ok w)
    (hf : isFail w = true) : FailShaped w := by
  induction elems generalizing i acc with
  | nil =>
    rw [runArrayElems] at h
    simp only [Except.ok.injEq] at h
    rw [← h] at hf
    simp at hf
  | cons x rest ih =>
    rw [runArrayElems] at h
    rcases hr : run item x .internal with e | itemV
    · simp only [hr] at h
      exact absurd h (by simp)
    · simp only [hr] at h
      by_cases hv : isFail itemV = true
      · simp only [hv, if_true] at h
        obtain ⟨r, pth, hs⟩ := hchild x (by simp) itemV hr hv
        subst hs
        rw [propagateFail_mkFail_internal] at h
        simp only [Except.ok.injEq] at h
        exact ⟨r, _, h.symm⟩
      · have hv2 : isFail itemV = false := by simpa using hv
        simp only [hv2, Bool.false_eq_true, if_false] at h
        exact ih (i + 1) (acc ++ [itemV]) (fun x2 hx2 => hchild x2 (by simp [hx2])) h

theorem failShapeDictEntries (krt vrt : Rt) (entries : List (String × JsVal))
    (topV res : JsVal) (pure : Bool) (w : JsVal)
    (hK : ∀ v2 w2, noFailSym v2 = true → run krt v2 .internal = .ok w2 →
      isFail w2 = true → FailShaped w2)
    (hV : ∀ v2 w2, noFailSym v2 = true → run vrt v2 .internal = .ok w2 →
      isFail w2 = true → FailShaped w2)
    (hvals : noFailSymFields entries = true)
    (hres : isFail res = false)
    (h : runDictEntries krt vrt entries topV res pure .internal = .ok w)
    (hf : isFail w = true) : FailShaped w := by
  induction entries generalizing res with
  | nil =>
    rw [runDictEntries] at h
    simp only [Except.ok.injEq] at h
    rw [← h] at hf
    exact absurd hf (by simp [hres])
  | cons p rest ih =>
    obtain ⟨k, val⟩ := p
    have hvrest : noFailSymFields rest = true := by
      rw [noFailSymFields] at hvals
      exact (Bool.and_eq_true_iff.mp hvals).2
    have hvval : noFailSym val = true := by
      rw [noFailSymFields] at hvals
      exact (Bool.and_eq_true_iff.mp hvals).1
    rw [runDictEntries] at h
    by_cases hkp : (k == "__proto__") = true
    · rw [if_pos hkp] at h
      simp [createFail] at h
      exact ⟨_, _, h.symm⟩
    · rw [if_neg (by simp [hkp])] at h
      rcases hr : run krt (.str k) .internal with e | keyOrFail
      · simp only [hr] at h
        exact absurd h (by simp)
      · simp only [hr] at h
        by_cases hkf : isFail keyOrFail = true
        · simp only [hkf, if_true] at h
          obtain ⟨r, pth, hs⟩ := hK (.str k) keyOrFail (by simp [noFailSym]) hr hkf
          subst hs
          rw [propagateFail_mkFail_internal] at h
          simp only [Except.ok.injEq] at h
          exact ⟨r, _, h.symm⟩
        · have hkf2 : isFail keyOrFail = false := by simpa using hkf
          simp only [hkf2, Bool.false_eq_true, if_false] at h
          rcases hv : run vrt val .internal with e | valueOrFail
          · simp only [hv] at h
            exact absurd h (by simp)
          · simp only [hv] at h
            by_cases hvf : isFail valueOrFail = true
            · simp only [hvf, if_true] at h
              obtain ⟨r, pth, hs⟩ := hV val valueOrFail hvval hv hvf
              subst hs
              rw [propagateFail_mkFail_internal] at h
              simp only [Except.ok.injEq] at h
              exact ⟨r, _, h.symm⟩
            · have hvf2 : isFail valueOrFail = false := by simpa using hvf
              simp only [hvf2, Bool.false_eq_true, if_false] at h
              refine ih (if pure then res else
                objSet res (jsToPropKey keyOrFail) valueOrFail) hvrest ?_ h
              by_cases hp : pure = true
              · simp [hp, hres]
              · have hp2 : pure = false := by simpa using hp
                simp [hp2, isFail_objSet, hres]

/-- The array branch of `run` on an array input, as one equation
(maxLength check, then minLength check, then the element loop). -/
theorem run_arrayRt_arr (item : Rt) (minLen maxLen : Option Nat)
    (xs : List JsVal) (m : Mode) :
    run (.arrayRt item minLen maxLen) (.arr xs) m
      = (match maxLen with
         | some mx =>
           if xs.length > mx then
             createFail m ("expected the array to contain at most " ++
               toString mx ++ " elements") (.arr xs)
           else
             match minLen with
             | some mn =>
               if xs.length < mn then
                 createFail m ("expected the array to contain at least " ++
                   toString mn ++ " elements") (.arr xs)
               else runArrayElems item xs 0 (.arr xs) [] m
             | none => runArrayElems item xs 0 (.arr xs) [] m
         | none =>
           match minLen with
           | some mn =>
             if xs.length < mn then
               createFail m ("expected the array to contain at least " ++
                 toString mn ++ " elements") (.arr xs)
             else runArrayElems item xs 0 (.arr xs) [] m
           | none => runArrayElems item xs 0 (.arr xs) [] m) := by
  rw [run.eq_def]

/-- Internal-mode validation on application values only returns the
`failSymbol` flag on objects of exactly the shape `createFail`
produces: a `reason` and a `path` field plus the private symbol. -/
theorem internalFailShape (rt : Rt) : ∀ v w, noFailSym v = true →
    run rt v .internal = .ok w → isFail w = true → FailShaped w := by
  induction rt using Rt.strongRec with
  | _ rt IH =>
  cases rt with
  | booleanRt =>
    intro v w hnfs h hf
    rw [run.eq_def] at h
    cases v with
    | bool b =>
      simp only [Except.ok.injEq] at h
      rw [← h] at hf
      simp at hf
    | undef =>
      simp [createFail, propagateFail_mkFail_internal] at h
      exact ⟨_, _, h.symm⟩
    | null =>
      simp [createFail, propagateFail_mkFail_internal] at h
      exact ⟨_, _, h.symm⟩
    | num n =>
      simp [createFail, propagateFail_mkFail_internal] at h
      exact ⟨_, _, h.symm⟩
    | str s =>
      simp [createFail, propagateFail_mkFail_internal] at h
      exact ⟨_, _, h.symm⟩
    | arr xs =>
      simp [createFail, propagateFail_mkFail_internal] at h
      exact ⟨_, _, h.symm⟩
    | obj fs ss =>
      simp [createFail, propagateFail_mkFail_internal] at h
      exact ⟨_, _, h.symm⟩
  | integerRt minI maxI =>
    intro v w hnfs h hf
    rw [run.eq_def] at h
    cases v with
    | num j =>
      by_cases hsafe : isSafeInteger j = true
      · rcases j with n | _
        · simp only [hsafe, if_true] at h
          (repeat' split at h) <;>
            first
              | (simp [createFail] at h
                 exact ⟨_, _, h.symm⟩)
              | (simp only [Except.ok.injEq] at h
                 rw [← h] at hf
                 simp at hf)
        · simp [isSafeInteger] at hsafe
      · have hsafe2 : isSafeInteger j = false := by simpa using hsafe
        simp only [hsafe2, Bool.false_eq_true, if_false] at h
        simp [createFail, propagateFail_mkFail_internal] at h
        exact ⟨_, _, h.symm⟩
    | undef =>
      simp [createFail, propagateFail_mkFail_internal] at h
      exact ⟨_, _, h.symm⟩
    | null =>
      simp [createFail, propagateFail_mkFail_internal] at h
      exact ⟨_, _, h.symm⟩
    | bool b =>
      simp [createFail, propagateFail_mkFail_internal] at h
      exact ⟨_, _, h.symm⟩
    | str s =>
      simp [createFail, propagateFail_mkFail_internal] at h
      exact ⟨_, _, h.symm⟩
    | arr xs =>
      simp [createFail, propagateFail_mkFail_internal] at h
      exact ⟨_, _, h.symm⟩
    | obj fs ss =>
      simp [createFail, propagateFail_mkFail_internal] at h
      exact ⟨_, _, h.symm⟩
  | stringRt minLen maxLen trim matchP =>
    intro v w hnfs h hf
    by_cases hstr : ∃ s, v = .str s
    · obtain ⟨s, rfl⟩ := hstr
      rcases minLen with _ | mn
      · rw [run_stringRt_str_none] at h
        exact failShapeStringChecks s maxLen trim matchP (.str s) w h hf
      · rw [run_stringRt_str_some] at h
        by_cases hmn : s.length < mn
        · rw [if_pos hmn] at h
          simp [createFail] at h
          exact ⟨_, _, h.symm⟩
        · rw [if_neg hmn] at h
          exact failShapeStringChecks s maxLen trim matchP (.str s) w h hf
    · rw [run_stringRt_notstr _ _ _ _ _ (fun s hs => hstr ⟨s, hs⟩)] at h
      simp only [Except.ok.injEq] at h
      exact ⟨_, _, h.symm⟩
  | stringAsIntegerRt minI maxI =>
    intro v w hnfs h hf
    rw [run.eq_def] at h
    cases v with
    | str s =>
      by_cases hsafe : isSafeInteger (jsParseInt10 s) = true
      · rcases hn : jsParseInt10 s with n | _
        · rw [hn] at hsafe
          simp only [hn, hsafe, if_true] at h
          (repeat' split at h) <;>
            first
              | (simp [createFail] at h
                 exact ⟨_, _, h.symm⟩)
              | (simp only [Except.ok.injEq] at h
                 rw [← h] at hf
                 simp at hf)
        · rw [hn] at hsafe
          simp [isSafeInteger] at hsafe
      · have hsafe2 : isSafeInteger (jsParseInt10 s) = false := by simpa using hsafe
        simp only [hsafe2, Bool.false_eq_true, if_false] at h
        rw [propagateFail_mkFail_internal] at h
        simp only [Except.ok.injEq] at h
        exact ⟨_, _, h.symm⟩
    | undef =>
      simp [createFail, propagateFail_mkFail_internal] at h
      exact ⟨_, _, h.symm⟩
    | null =>
      simp [createFail, propagateFail_mkFail_internal] at h
      exact ⟨_, _, h.symm⟩
    | bool b =>
      simp [createFail, propagateFail_mkFail_internal] at h
      exact ⟨_, _, h.symm⟩
    | num n =>
      simp [createFail, propagateFail_mkFail_internal] at h
      exact ⟨_, _, h.symm⟩
    | arr xs =>
      simp [createFail, propagateFail_mkFail_internal] at h
      exact ⟨_, _, h.symm⟩
    | obj fs ss =>
      simp [createFail, propagateFail_mkFail_internal] at h
      exact ⟨_, _, h.symm⟩
  | literalRt lit =>
    intro v w hnfs h hf
    rw [run.eq_def] at h
    by_cases hl : jsStrictEq v lit = true
    · simp only [hl, if_true] at h
      simp only [Except.ok.injEq] at h
      rw [← h] at hf
      exact absurd hf (by simp [isFail_of_jsStrictEq hl])
    · simp only [hl, Bool.false_eq_true, if_false] at h
      simp [createFail] at h
      exact ⟨_, _, h.symm⟩
  | unknownRt =>
    intro v w hnfs h hf
    simp [run] at h
    rw [← h] at hf
    exact absurd hf (by simp [isFail_of_noFailSym hnfs])
  | ignoreRt =>
    intro v w hnfs h hf
    simp [run] at h
    rw [← h] at hf
    simp at hf
  | optionalRt t =>
    intro v w hnfs h hf
    cases v
    case undef =>
      rw [run.eq_def] at h
      simp at h
      rw [← h] at hf
      simp at hf
    all_goals
      rw [run.eq_def] at h
      simp at h
      exact IH t (by simp_arith) _ _ hnfs h hf
  | nullableRt t =>
    intro v w hnfs h hf
    cases v
    case null =>
      rw [run.eq_def] at h
      simp at h
      rw [← h] at hf
      simp at hf
    all_goals
      rw [run.eq_def] at h
      simp at h
      exact IH t (by simp_arith) _ _ hnfs h hf
  | arrayRt item minLen maxLen =>
    intro v w hnfs h hf
    cases v with
    | arr xs =>
      have hchild : ∀ x ∈ xs, ∀ w2, run item x .internal = .ok w2 →
          isFail w2 = true → FailShaped w2 := by
        intro x hx w2 h2 hf2
        refine IH item (by simp_arith) x w2 ?_ h2 hf2
        rw [noFailSym] at hnfs
        exact noFailSymElems_mem hnfs hx
      rw [run_arrayRt_arr] at h
      (repeat' split at h) <;>
        first
          | (simp [createFail] at h
             exact ⟨_, _, h.symm⟩)
          | exact failShapeArrayElems item xs 0 _ [] w hchild h hf
    | undef =>
      rw [run.eq_def] at h
      simp [createFail, propagateFail_mkFail_internal] at h
      exact ⟨_, _, h.symm⟩
    | null =>
      rw [run.eq_def] at h
      simp [createFail, propagateFail_mkFail_internal] at h
      exact ⟨_, _, h.symm⟩
    | bool b =>
      rw [run.eq_def] at h
      simp [createFail, propagateFail_mkFail_internal] at h
      exact ⟨_, _, h.symm⟩
    | num n =>
      rw [run.eq_def] at h
      simp [createFail, propagateFail_mkFail_internal] at h
      exact ⟨_, _, h.symm⟩
    | str s2 =>
      rw [run.eq_def] at h
      simp [createFail, propagateFail_mkFail_internal] at h
      exact ⟨_, _, h.symm⟩
    | obj fs ss =>
      rw [run.eq_def] at h
      simp [createFail, propagateFail_mkFail_internal] at h
      exact ⟨_, _, h.symm⟩
  | recordRt fields =>
    intro v w hnfs h hf
    cases v with
    | obj fs ss =>
      have hne : isFail (.obj fs ss) = false := isFail_of_noFailSym hnfs
      rw [run.eq_def] at h
      simp [hne] at h
      refine failShapeRecordFields fields _ _ emptyObj w
        (by simp [emptyObj, isFail]) ?_ h hf
      intro p hp w2 h2 hf2
      refine IH p.2 ?_ _ w2 (noFailSym_getFieldD p.1 hnfs) h2 hf2
      have := sizeOf_mem_fields (k := p.1) (r := p.2) (by simpa using hp)
      simp_arith
      omega
    | undef =>
      simp_all [run, createFail, propagateFail_mkFail_internal] <;>
        (try subst_vars) <;>
        first
          | exact ⟨_, _, rfl⟩
          | simp_all
    | null =>
      simp_all [run, createFail, propagateFail_mkFail_internal] <;>
        (try subst_vars) <;>
        first
          | exact ⟨_, _, rfl⟩
          | simp_all
    | bool b =>
      simp_all [run, createFail, propagateFail_mkFail_internal] <;>
        (try subst_vars) <;>
        first
          | exact ⟨_, _, rfl⟩
          | simp_all
    | num n =>
      simp_all [run, createFail, propagateFail_mkFail_internal] <;>
        (try subst_vars) <;>
        first
          | exact ⟨_, _, rfl⟩
          | simp_all
    | str s2 =>
      simp_all [run, createFail, propagateFail_mkFail_internal] <;>
        (try subst_vars) <;>
        first
          | exact ⟨_, _, rfl⟩
          | simp_all
    | arr xs =>
      simp_all [run, createFail, propagateFail_mkFail_internal] <;>
        (try subst_vars) <;>
        first
          | exact ⟨_, _, rfl⟩
          | simp_all
  | dictionaryRt krt vrt =>
    intro v w hnfs h hf
    cases v with
    | obj fs ss =>
      have hne : isFail (.obj fs ss) = false := isFail_of_noFailSym hnfs
      rw [run.eq_def] at h
      simp [hne] at h
      by_cases hss : ss.isEmpty = true
      · simp [hss] at h
        refine failShapeDictEntries krt vrt fs (.obj fs ss) _ _ w
          (fun v2 w2 hn h2 hf2 => IH krt (by simp_arith) v2 w2 hn h2 hf2)
          (fun v2 w2 hn h2 hf2 => IH vrt (by simp_arith) v2 w2 hn h2 hf2)
          (by rw [noFailSym] at hnfs
              exact (Bool.and_eq_true_iff.mp hnfs).2) ?_ h hf
        by_cases hp : (isPureRt krt && isPureRt vrt) = true
        · have hp2 : isPureRt krt = true ∧ isPureRt vrt = true := by
            simpa [Bool.and_eq_true] using hp
          simp [hp2, hne]
        · have hp2 : ¬(isPureRt krt = true ∧ isPureRt vrt = true) := by
            simpa [Bool.and_eq_true] using hp
          simp [hp2, emptyObj, isFail]
      · simp [hss, createFail] at h
        exact ⟨_, _, h.symm⟩
    | undef =>
      simp_all [run, createFail, propagateFail_mkFail_internal] <;>
        (try subst_vars) <;>
        first
          | exact ⟨_, _, rfl⟩
          | simp_all
    | null =>
      simp_all [run, createFail, propagateFail_mkFail_internal] <;>
        (try subst_vars) <;>
        first
          | exact ⟨_, _, rfl⟩
          | simp_all
    | bool b =>
      simp_all [run, createFail, propagateFail_mkFail_internal] <;>
        (try subst_vars) <;>
        first
          | exact ⟨_, _, rfl⟩
          | simp_all
    | num n =>
      simp_all [run, createFail, propagateFail_mkFail_internal] <;>
        (try subst_vars) <;>
        first
          | exact ⟨_, _, rfl⟩
          | simp_all
    | str s2 =>
      simp_all [run, createFail, propagateFail_mkFail_internal] <;>
        (try subst_vars) <;>
        first
          | exact ⟨_, _, rfl⟩
          | simp_all
    | arr xs =>
      simp_all [run, createFail, propagateFail_mkFail_internal] <;>
        (try subst_vars) <;>
        first
          | exact ⟨_, _, rfl⟩
          | simp_all
  | unionRt a rest =>
    intro v w hnfs h hf
    rw [run.eq_def] at h
    simp at h
    refine failShapeUnionAlts (a :: rest) v w ?_ h hf
    intro r hr w2 h2 hf2
    refine IH r ?_ v w2 hnfs h2 hf2
    rcases List.mem_cons.mp hr with h3 | h3
    · subst h3
      simp_arith
    · have := sizeOf_mem_list h3
      simp_arith
      omega
  | discriminatedUnionRt key table =>
    intro v w hnfs h hf
    cases v with
    | obj fs ss =>
      have hne : isFail (.obj fs ss) = false := isFail_of_noFailSym hnfs
      rw [run.eq_def] at h
      simp [hne] at h
      rcases hLk2 : lookupTable table (getFieldD (.obj fs ss) key) with _ | rt2
      · simp [hLk2, runDiscAlt, createFail] at h
        exact ⟨_, _, h.symm⟩
      · simp [hLk2, runDiscAlt] at h
        have hsz : sizeOf rt2 < sizeOf (Rt.discriminatedUnionRt key table) := by
          have := lookupTable_sizeOf hLk2
          simp_arith
          omega
        exact IH rt2 hsz _ _ hnfs h hf
    | undef =>
      simp_all [run, createFail, propagateFail_mkFail_internal] <;>
        (try subst_vars) <;>
        first
          | exact ⟨_, _, rfl⟩
          | simp_all
    | null =>
      simp_all [run, createFail, propagateFail_mkFail_internal] <;>
        (try subst_vars) <;>
        first
          | exact ⟨_, _, rfl⟩
          | simp_all
    | bool b =>
      simp_all [run, createFail, propagateFail_mkFail_internal] <;>
        (try subst_vars) <;>
        first
          | exact ⟨_, _, rfl⟩
          | simp_all
    | num n =>
      simp_all [run, createFail, propagateFail_mkFail_internal] <;>
        (try subst_vars) <;>
        first
          | exact ⟨_, _, rfl⟩
          | simp_all
    | str s2 =>
      simp_all [run, createFail, propagateFail_mkFail_internal] <;>
        (try subst_vars) <;>
        first
          | exact ⟨_, _, rfl⟩
          | simp_all
    | arr xs =>
      simp_all [run, createFail, propagateFail_mkFail_internal] <;>
        (try subst_vars) <;>
        first
          | exact ⟨_, _, rfl⟩
          | simp_all
  | intersectBaseRt a b =>
    intro v w hnfs h hf
    obtain ⟨wa, hwa⟩ := run_internal_ok a v
    obtain ⟨wb, hwb⟩ := run_internal_ok b v
    rw [run.eq_def] at h
    simp [hwa, hwb] at h
    by_cases hbf : isFail wb = true
    · obtain ⟨r, p, hs⟩ := IH b (by simp_arith) v wb hnfs hwb hbf
      subst hs
      rw [propagateFail_mkFail_internal] at h
      simp [hbf] at h
      exact ⟨r, _, h.symm⟩
    · have hbf2 : isFail wb = false := by simpa using hbf
      by_cases haf : isFail wa = true
      · obtain ⟨r, p, hs⟩ := IH a (by simp_arith) v wa hnfs hwa haf
        subst hs
        rw [propagateFail_mkFail_internal] at h
        simp [hbf2, haf] at h
        exact ⟨r, _, h.symm⟩
      · have haf2 : isFail wa = false := by simpa using haf
        simp [hbf2, haf2] at h
        rw [← h] at hf
        exact absurd hf (by simp [hbf2])

/-- Claim C10: the failure marker is unambiguously distinguishable from
every legitimate application value: (1) every marker `createFail`
builds is classified as a failure; (2) a value carrying no occurrence
of the private `failSymbol` (which application data cannot obtain) is
never classified as a failure; (3) on such application values,
internal-mode validation flags a result as a failure only when it is a
genuine marker of the `createFail` shape; (4) a value deliberately
built to resemble the marker — same `reason`/`path` fields and a
symbol with the same description but a different identity — is not
classified as a failure; (5) consequently `union` returns a non-failure
success of its first alternative as-is instead of misinterpreting it. -/
theorem claim_C10 :
    (∀ (r : String) (p : List JsVal), isFail (mkFail r p) = true) ∧
    (∀ v : JsVal, noFailSym v = true → isFail v = false) ∧
    (∀ (rt : Rt) (v w : JsVal), noFailSym v = true →
      run rt v .internal = .ok w → isFail w = true → FailShaped w) ∧
    (isFail (.obj [("reason", .str "expected a string"), ("path", .arr [])]
      [(Sym.mk 1 "SimpleRuntypesFail", .bool true)]) = false) ∧
    (∀ (a : Rt) (rest : List Rt) (v w : JsVal) (m : Mode),
      run a v .internal = .ok w → isFail w = false →
      run (.unionRt a rest) v m = .ok w) := by
  refine ⟨fun r p => by simp, fun v h => isFail_of_noFailSym h,
    internalFailShape, by simp [isFail, failSymbol], ?_⟩
  intro a rest v w m h hw
  rw [run.eq_def]
  exact unionAlts_first_success [] a rest v w m (by simp) h hw

/-- Witness for C10: the string `"x"` carries no fail symbol and is not
a failure; `integer()` validating `"x"` internally returns a value
flagged as a failure, which clause (3) certifies to be a genuine
`createFail`-shaped marker; and a union whose first alternative
`boolean()` accepts `true` returns it unchanged. -/
theorem claim_C10_witness :
    isFail (.str "x") = false ∧
    FailShaped (mkFail "expected a safe integer" []) ∧
    run (.unionRt .booleanRt [.integerRt none none]) (.bool true) .internal
      = .ok (.bool true) := by
  refine ⟨claim_C10.2.1 (.str "x") (by simp [noFailSym]), ?_, ?_⟩
  · refine claim_C10.2.2.1 (.integerRt none none) (.str "x")
      (mkFail "expected a safe integer" []) (by simp [noFailSym]) ?_ (by simp)
    rw [run.eq_def]
    simp [createFail, propagateFail_mkFail_internal]
  · refine claim_C10.2.2.2.2 .booleanRt [.integerRt none none] (.bool true)
      (.bool true) .internal ?_ rfl
    simp [run]

end SimpleRuntypes

namespace SimpleRuntypes

theorem dictEntries_pure (krt vrt : Rt) (entries : List (String × JsVal))
    (topV res w : JsVal) (m : Mode)
    (h : runDictEntries krt vrt entries topV res true m = .ok w)
    (hok : isFail w = false) : w = res := by
  induction entries generalizing res with
  | nil =>
    rw [runDictEntries] at h
    simp only [Except.ok.injEq] at h
    exact h.symm
  | cons p rest ih =>
    obtain ⟨k, val⟩ := p
    rw [runDictEntries] at h
    by_cases hkp : (k == "__proto__") = true
    · rw [if_pos hkp] at h
      exact absurd (createFail_ok_isFail h) (by simp [hok])
    · rw [if_neg (by simp [hkp])] at h
      rcases hr : run krt (.str k) m with e | keyOrFail
      · simp only [hr] at h
        exact absurd h (by simp)
      · simp only [hr] at h
        by_cases hkf : isFail keyOrFail = true
        · simp only [hkf, if_true] at h
          have := propagateFail_ok_isFail h
          rw [hok, hkf] at this
          simp at this
        · have hkf2 : isFail keyOrFail = false := by simpa using hkf
          simp only [hkf2, Bool.false_eq_true, if_false] at h
          rcases hv : run vrt val m with e | valueOrFail
          · simp only [hv] at h
            exact absurd h (by simp)
          · simp only [hv] at h
            by_cases hvf : isFail valueOrFail = true
            · simp only [hvf, if_true] at h
              have := propagateFail_ok_isFail h
              rw [hok, hvf] at this
              simp at this
            · have hvf2 : isFail valueOrFail = false := by simpa using hvf
              simp only [hvf2, Bool.false_eq_true, if_false, if_true] at h
              exact ih res h

/-- Counterexample for C8: `string({trim: true})` accepts `" x "` but
returns the different value `"x"`, so accepted inputs are not always
returned deep-equal; the same through `dictionary(string(),
string({trim: true}))`, whose value runtype is impure, so the whole
dictionary is impure and allocates a new object with the trimmed
value. -/
theorem claim_C8_counterexample :
    run (.stringRt none none true none) (.str " x ") .internal = .ok (.str "x") ∧
    ¬ (JsVal.str "x" = JsVal.str " x ") ∧
    isPureRt (.stringRt none none true none) = false ∧
    run (.dictionaryRt (.stringRt none none false none) (.stringRt none none true none))
        (.obj [("a", .str " x ")] []) .internal = .ok (.obj [("a", .str "x")] []) ∧
    ¬ (JsVal.obj [("a", .str "x")] [] = JsVal.obj [("a", .str " x ")] []) := by
  refine ⟨?_, by simp, by simp [isPureRt], ?_, by simp⟩
  · rw [run_stringRt_str_none]
    simp [runStringChecks, show jsTrim " x " = "x" from rfl]
  · rw [run.eq_def]
    simp [isPureRt, runDictEntries, run_stringRt_str_none, runStringChecks,
      createFail, objSet, setAssoc, jsToPropKey, emptyObj,
      show isFail (JsVal.obj [("a", JsVal.str " x ")] []) = false from rfl,
      show isFail (JsVal.str "a") = false from rfl,
      show isFail (JsVal.str "x") = false from rfl,
      show jsTrim " x " = "x" from rfl]

/-- Claim C8 (amended): the dictionary combinator computes its purity
as the conjunction of its key and value runtypes' purity; when that
conjunction holds, a successful validation returns the original input
object itself (the model's analogue of reference equality), as the
concrete pure example shows; and the forbidden-key checks run
unconditionally: an own `__proto__` key is always rejected, and an
object carrying symbol-keyed properties is always rejected, pure or
not.  (The original claim's general deep-equality for every accepted
input fails for the transforming validators, e.g. trim.) -/
theorem claim_C8_amended :
    (∀ krt vrt : Rt,
      isPureRt (.dictionaryRt krt vrt) = (isPureRt krt && isPureRt vrt)) ∧
    (∀ (krt vrt : Rt) (fs : List (String × JsVal)) (ss : List (Sym × JsVal))
        (w : JsVal) (m : Mode),
      (isPureRt krt && isPureRt vrt) = true →
      run (.dictionaryRt krt vrt) (.obj fs ss) m = .ok w →
      isFail w = false → w = .obj fs ss) ∧
    (∀ (krt vrt : Rt) (fs : List (String × JsVal)) (ss : List (Sym × JsVal))
        (w : JsVal),
      "__proto__" ∈ objKeys (.obj fs ss) →
      run (.dictionaryRt krt vrt) (.obj fs ss) .internal = .ok w →
      isFail w = true) ∧
    (∀ (krt vrt : Rt) (fs : List (String × JsVal)) (ss : List (Sym × JsVal)),
      isFail (.obj fs ss) = false → ¬ (ss = []) →
      run (.dictionaryRt krt vrt) (.obj fs ss) .internal
        = .ok (mkFail ("invalid key in dictionary: " ++
            debugValue (.arr (ss.map (fun _ => JsVal.null)))) [])) ∧
    (run (.dictionaryRt (.stringRt none none false none) (.stringRt none none false none))
        (.obj [("a", .str "x")] []) .internal
      = .ok (.obj [("a", .str "x")] [])) := by
  refine ⟨fun krt vrt => by simp [isPureRt], ?_, ?_, ?_, ?_⟩
  · intro krt vrt fs ss w m hpure hrun hok
    rw [run.eq_def] at hrun
    by_cases hF : isFail (.obj fs ss) = true
    · simp only [hF, if_true] at hrun
      have := propagateFail_ok_isFail hrun
      rw [hok, hF] at this
      simp at this
    · have hF2 : isFail (.obj fs ss) = false := by simpa using hF
      simp only [hF2, Bool.false_eq_true, if_false] at hrun
      by_cases hss : (!ss.isEmpty) = true
      · simp only [hss, if_true] at hrun
        exact absurd (createFail_ok_isFail hrun) (by simp [hok])
      · have hss2 : (!ss.isEmpty) = false := by simpa using hss
        simp only [hss2, Bool.false_eq_true, if_false, hpure, if_true] at hrun
        exact dictEntries_pure krt vrt fs (.obj fs ss) (.obj fs ss) w m hrun hok
  · intro krt vrt fs ss w hkey hrun
    rw [run.eq_def] at hrun
    by_cases hF : isFail (.obj fs ss) = true
    · simp only [hF, if_true] at hrun
      obtain ⟨g, hg, hgf⟩ := propagateFail_internal_isFail (.obj fs ss) (.obj fs ss) none
      rw [hg] at hrun
      simp only [Except.ok.injEq] at hrun
      rw [← hrun, hgf]
      exact hF
    · have hF2 : isFail (.obj fs ss) = false := by simpa using hF
      simp only [hF2, Bool.false_eq_true, if_false] at hrun
      by_cases hss : (!ss.isEmpty) = true
      · simp only [hss, if_true] at hrun
        simp [createFail] at hrun
        rw [← hrun]
        simp
      · have hss2 : (!ss.isEmpty) = false := by simpa using hss
        simp only [hss2, Bool.false_eq_true, if_false] at hrun
        exact dictEntries_proto_fail krt vrt fs (.obj fs ss) _ _ w
          (by simpa [objKeys] using hkey) hrun
  · intro krt vrt fs ss hF hss
    rw [run.eq_def]
    have hss2 : (!ss.isEmpty) = true := by
      cases ss with
      | nil => exact absurd rfl hss
      | cons a l => simp
    simp only [hF, Bool.false_eq_true, if_false, hss2, if_true]
    simp [createFail]
  · rw [run.eq_def]
    simp [isPureRt, runDictEntries, run_stringRt_str_none, runStringChecks,
      createFail,
      show isFail (JsVal.obj [("a", JsVal.str "x")] []) = false from rfl,
      show isFail (JsVal.str "a") = false from rfl,
      show isFail (JsVal.str "x") = false from rfl]

/-- Witness for C8: the pure `dictionary(string(), string())` validates
`{a: "x"}` to the very same object, certified by the purity clause;
and the proto clause applied to the same dictionary on
`{__proto__: "x"}` yields a failure marker. -/
theorem claim_C8_witness :
    JsVal.obj [("a", .str "x")] [] = JsVal.obj [("a", .str "x")] [] ∧
    isFail (mkFail ("invalid key in dictionary: " ++
      debugValue (.str "__proto__")) []) = true := by
  constructor
  · exact claim_C8_amended.2.1 (.stringRt none none false none)
      (.stringRt none none false none) [("a", .str "x")] []
      (.obj [("a", .str "x")] []) .internal (by simp [isPureRt])
      claim_C8_amended.2.2.2.2 rfl
  · refine claim_C8_amended.2.2.1 (.stringRt none none false none)
      (.stringRt none none false none) [("__proto__", .str "x")] []
      (mkFail ("invalid key in dictionary: " ++ debugValue (.str "__proto__")) [])
      (by simp [objKeys]) ?_
    rw [run.eq_def]
    simp [isPureRt, runDictEntries, createFail,
      show isFail (JsVal.obj [("__proto__", JsVal.str "x")] []) = false from rfl]

end SimpleRuntypes
